import Mathlib

/-!
Shallow embedding of the ACVM partial witness generator and of its Brillig
unconstrained VM, translated from the Rust sources:

* `acvm/src/pwg/mod.rs`            — solve loop, `insert_value`, `finalize`,
                                     foreign-call queue;
* `acvm/src/pwg/blackbox/mod.rs`   — blackbox dispatcher and its input guard;
* `brillig_vm/src/lib.rs`          — the Brillig register VM;
* `crates/acvm/src/pwg/hash/mod.rs`— legacy hash solvers' witness write-back;
* `crates/acir/src/native_types/witness.rs` — the witness index newtype.

External collaborators (field arithmetic, cryptographic digests, the standard
`BTreeMap`) are modelled by executable Lean definitions over `Nat`; Rust
panics and `unreachable!` branches are modelled as `Option.none` or as an
explicit `panicked` outcome.
-/

/-- Modelled from the spec: field elements are opaque values supporting
decidable equality (§3 "Field element F — opaque"); the field structure is an
external collaborator, so we use `Nat` as the carrier. -/
abbrev FieldElement := Nat

/-- Witness index newtype, from `crates/acir/src/native_types/witness.rs`
(`pub struct Witness(pub u32)`). -/
structure Witness where
  index : Nat
deriving DecidableEq, Repr

/-- The witness map `M : W ↦ F`. The Rust `WitnessMap` wraps a
`BTreeMap<Witness, FieldElement>`; we model it as an association list with
unique-key insertion semantics. -/
def WitnessMap := List (Witness × FieldElement)

namespace WitnessMap

/-- `BTreeMap::get`. -/
def lookup (m : WitnessMap) (w : Witness) : Option FieldElement :=
  match m with
  | [] => none
  | (w0, v0) :: rest => if w0 = w then some v0 else lookup rest w

/-- `BTreeMap::contains_key`. -/
def containsKey (m : WitnessMap) (w : Witness) : Bool :=
  (m.lookup w).isSome

/-- `BTreeMap::insert` (the new value replaces any existing binding). -/
def insertB (m : WitnessMap) (w : Witness) (v : FieldElement) : WitnessMap :=
  match m with
  | [] => [(w, v)]
  | (w0, v0) :: rest => if w0 = w then (w0, v) :: rest else (w0, v0) :: insertB rest w v

end WitnessMap

/-- Modelled from the spec: `Expression` (§3) — a sum
`c₀ + Σ aᵢ·wᵢ + Σ bⱼ·wⱼ·wₖ` with field coefficients. The source file
`acir/src/native_types/expression.rs` is not in the snapshot. -/
structure Expression where
  qC : FieldElement
  linearCombinations : List (FieldElement × Witness)
  mulTerms : List (FieldElement × Witness × Witness)
deriving DecidableEq, Repr

/-- Modelled from the spec: the blackbox function kind tags used by the error
taxonomy (`acir`'s `BlackBoxFunc` enum is not in the snapshot). -/
inductive BlackBoxFunc where
  | AND | XOR | RANGE | SHA256 | Blake2s | Keccak256
  | HashToField128Security | SchnorrVerify | Pedersen
  | EcdsaSecp256k1 | FixedBaseScalarMul | RecursiveAggregation
deriving DecidableEq, Repr

/-- `OpcodeNotSolvable`, from `acvm/src/pwg/mod.rs`. -/
inductive OpcodeNotSolvable where
  | missingAssignment (w : Nat)
  | expressionHasTooManyUnknowns (e : Expression)
deriving DecidableEq, Repr

/-- `OpcodeResolutionError`, from `acvm/src/pwg/mod.rs`. -/
inductive OpcodeResolutionError where
  | opcodeNotSolvable (r : OpcodeNotSolvable)
  | unsupportedBlackBoxFunc (f : BlackBoxFunc)
  | unsatisfiedConstrain
  | blackBoxFunctionFailed (f : BlackBoxFunc) (msg : String)
  | brilligFunctionFailed (msg : String)
deriving DecidableEq, Repr

/-- `insert_value`, from `acvm/src/pwg/mod.rs` lines 273–290: insert first
(mirroring `BTreeMap::insert`, which returns the old value), then fail with
`UnsatisfiedConstrain` if the old value differs from the inserted one. The
returned map reflects the mutation even in the error case, as the Rust
function mutates through `&mut`. -/
def insert_value (w : Witness) (valueToInsert : FieldElement) (initialWitness : WitnessMap) :
    WitnessMap × Except OpcodeResolutionError Unit :=
  let optionalOldValue := initialWitness.lookup w
  let updated := initialWitness.insertB w valueToInsert
  match optionalOldValue with
  | none => (updated, Except.ok ())
  | some oldValue =>
    if oldValue ≠ valueToInsert then (updated, Except.error OpcodeResolutionError.unsatisfiedConstrain)
    else (updated, Except.ok ())

/-- Witness write-back of the legacy `sha256` solver, from
`crates/acvm/src/pwg/hash/mod.rs` lines 80–83: after asserting that the call
has exactly two outputs, the two digest halves are written with plain
`BTreeMap::insert`, with no equality check against existing entries. The
digest computation itself is an external cryptographic primitive, so `low`
and `high` stand for the two 128-bit halves of the digest; `none` models the
`assert_eq!(outputs.len(), 2)` panic. -/
def sha256WriteOutputs (outputs : List Witness) (low high : FieldElement)
    (initialWitness : WitnessMap) : Option WitnessMap :=
  match outputs with
  | [o0, o1] => some ((initialWitness.insertB o0 low).insertB o1 high)
  | _ => none

namespace BrilligVM

/-- Modelled from the spec: `Value` (§3) — "a field element together with a
128-bit integer view" (`brillig_vm/src/value.rs` is not in the snapshot);
only conversions and zero-tests are exercised, so we use `Nat`. -/
abbrev Value := Nat

/-- `Value::is_zero`. -/
def Value.isZero (v : Value) : Bool := v == 0

/-- `Value::to_usize`. -/
def Value.toUsize (v : Value) : Nat := v

abbrev RegisterIndex := Nat

/-- Modelled from the spec: the register file (§3 "registers"), read through
`Registers::get` and written through `Registers::set`
(`brillig_vm/src/registers.rs` is not in the snapshot); unwritten registers
read as zero and writes extend the file as needed. -/
abbrev Registers := List Value

/-- `Registers::get`. -/
def Registers.get (r : Registers) (i : RegisterIndex) : Value := r.getD i 0

/-- `Registers::set`: zero-extend to cover index `i`, then overwrite slot `i`. -/
def Registers.set (r : Registers) (i : RegisterIndex) (v : Value) : Registers :=
  List.set (r ++ List.replicate (i + 1 - r.length) 0) i v

/-- Modelled from the spec: VM memory (§4.5 "Memory model") — reads beyond
the high-water mark return zero, writes extend the backing store
(`brillig_vm/src/memory.rs` is not in the snapshot). -/
abbrev Memory := List Value

/-- `Memory::read`. -/
def Memory.read (m : Memory) (i : Nat) : Value := m.getD i 0

/-- `Memory::write`. -/
def Memory.write (m : Memory) (i : Nat) (v : Value) : Memory :=
  List.set (m ++ List.replicate (i + 1 - m.length) 0) i v

/-- `Memory::read_slice`. -/
def Memory.readSlice (m : Memory) (start size : Nat) : List Value :=
  (List.range size).map (fun k => Memory.read m (start + k))

/-- `Memory::write_slice`. -/
def Memory.writeSlice (m : Memory) (start : Nat) : List Value → Memory
  | [] => m
  | v :: rest => Memory.writeSlice (Memory.write m start v) (start + 1) rest

/-- Modelled from the spec: binary field operations (§4.5, "field op on
R[lhs], R[rhs]"); `brillig_vm/src/opcodes.rs` is not in the snapshot, so a
representative operation set is given over the `Nat` carrier. -/
inductive BinaryFieldOp where
  | add | mul | equals
deriving DecidableEq, Repr

/-- Modelled from the spec: `BinaryFieldOp::evaluate_field`. -/
def BinaryFieldOp.evaluateField : BinaryFieldOp → Value → Value → Value
  | .add, l, r => l + r
  | .mul, l, r => l * r
  | .equals, l, r => if l = r then 1 else 0

/-- Modelled from the spec: binary integer operations (§4.5, "integer op on
low 128 bits modulo 2^bits"). -/
inductive BinaryIntOp where
  | add | sub | mul | equals | lessThan | lessThanEquals
deriving DecidableEq, Repr

/-- Modelled from the spec: `BinaryIntOp::evaluate_int`, computing modulo
`2 ^ bitSize`. -/
def BinaryIntOp.evaluateInt (op : BinaryIntOp) (bitSize : Nat) (lhs rhs : Value) : Value :=
  let l := lhs % 2 ^ bitSize
  let r := rhs % 2 ^ bitSize
  match op with
  | .add => (l + r) % 2 ^ bitSize
  | .sub => (l + (2 ^ bitSize - r)) % 2 ^ bitSize
  | .mul => (l * r) % 2 ^ bitSize
  | .equals => if l = r then 1 else 0
  | .lessThan => if l < r then 1 else 0
  | .lessThanEquals => if l ≤ r then 1 else 0

/-- `RegisterOrMemory`, from `brillig_vm/src/opcodes.rs` as used by
`brillig_vm/src/lib.rs`. -/
inductive RegisterOrMemory where
  | registerIndex (i : RegisterIndex)
  | heapArray (pointerIndex : RegisterIndex) (size : Nat)
  | heapVector (pointerIndex : RegisterIndex) (sizeIndex : RegisterIndex)
deriving DecidableEq, Repr

/-- The Brillig opcode set, as matched by `VM::process_opcode` in
`brillig_vm/src/lib.rs` (`ret` renders the source's `Return`). -/
inductive Opcode where
  | binaryFieldOp (op : BinaryFieldOp) (lhs rhs destination : RegisterIndex)
  | binaryIntOp (op : BinaryIntOp) (bitSize : Nat) (lhs rhs destination : RegisterIndex)
  | jump (location : Nat)
  | jumpIf (condition : RegisterIndex) (location : Nat)
  | jumpIfNot (condition : RegisterIndex) (location : Nat)
  | ret
  | foreignCall (function : String) (destinations : List RegisterOrMemory)
      (inputs : List RegisterOrMemory)
  | mov (destination source : RegisterIndex)
  | trap
  | stop
  | load (destination sourcePointer : RegisterIndex)
  | store (destinationPointer source : RegisterIndex)
  | call (location : Nat)
  | const (destination : RegisterIndex) (value : Value)
deriving DecidableEq, Repr

/-- `ForeignCallOutput`, from `brillig_vm/src/lib.rs`. -/
inductive ForeignCallOutput where
  | single (v : Value)
  | array (vs : List Value)
deriving DecidableEq, Repr

/-- `ForeignCallResult`, from `brillig_vm/src/lib.rs`. -/
structure ForeignCallResult where
  values : List ForeignCallOutput
deriving DecidableEq, Repr

/-- `VMStatus`, from `brillig_vm/src/lib.rs`. -/
inductive VMStatus where
  | finished
  | inProgress
  | failure (message : String)
  | foreignCallWait (function : String) (inputs : List (List Value))
deriving DecidableEq, Repr

/-- `VM`, from `brillig_vm/src/lib.rs`; the call stack is a LIFO list whose
head is the most recently pushed value. -/
structure VM where
  registers : Registers
  programCounter : Nat
  foreignCallCounter : Nat
  foreignCallResults : List ForeignCallResult
  bytecode : List Opcode
  status : VMStatus
  memory : Memory
  callStack : List Value
deriving DecidableEq, Repr

namespace VM

/-- `VM::new`. -/
def new (inputs : Registers) (memory : List Value) (bytecode : List Opcode)
    (foreignCallResults : List ForeignCallResult) : VM :=
  { registers := inputs
    programCounter := 0
    foreignCallCounter := 0
    foreignCallResults := foreignCallResults
    bytecode := bytecode
    status := VMStatus.inProgress
    memory := memory
    callStack := [] }

/-- `VM::finish`. -/
def finish (v : VM) : VM := { v with status := VMStatus.finished }

/-- `VM::wait_for_foreign_call`. -/
def waitForForeignCall (v : VM) (function : String) (inputs : List (List Value)) : VM :=
  { v with status := VMStatus.foreignCallWait function inputs }

/-- `VM::fail`. -/
def fail (v : VM) (message : String) : VM := { v with status := VMStatus.failure message }

/-- `VM::set_program_counter`: store the new value and transition to
`Finished` when it no longer points into the bytecode. The source's
`assert!(self.program_counter < self.bytecode.len())` concerns the pre-call
counter, which at every call site has just been used to fetch an opcode. -/
def setProgramCounter (v : VM) (value : Nat) : VM :=
  let v1 := { v with programCounter := value }
  if v1.bytecode.length ≤ value then { v1 with status := VMStatus.finished } else v1

/-- `VM::increment_program_counter`. -/
def incrementProgramCounter (v : VM) : VM := v.setProgramCounter (v.programCounter + 1)

/-- `VM::get_register_value_or_memory_values`. -/
def getRegisterValueOrMemoryValues (v : VM) : RegisterOrMemory → List Value
  | .registerIndex valueIndex => [Registers.get v.registers valueIndex]
  | .heapArray pointerIndex size =>
      (Memory.readSlice v.memory (Registers.get v.registers pointerIndex).toUsize size)
  | .heapVector pointerIndex sizeIndex =>
      (Memory.readSlice v.memory (Registers.get v.registers pointerIndex).toUsize
        (Registers.get v.registers sizeIndex).toUsize)

/-- `VM::process_binary_field_op`. -/
def processBinaryFieldOp (v : VM) (op : BinaryFieldOp) (lhs rhs result : RegisterIndex) : VM :=
  { v with registers :=
      Registers.set v.registers result (op.evaluateField (Registers.get v.registers lhs) (Registers.get v.registers rhs)) }

/-- `VM::process_binary_int_op`. -/
def processBinaryIntOp (v : VM) (op : BinaryIntOp) (bitSize : Nat)
    (lhs rhs result : RegisterIndex) : VM :=
  { v with registers :=
      Registers.set v.registers result (op.evaluateInt bitSize (Registers.get v.registers lhs) (Registers.get v.registers rhs)) }

/-- The write-back loop of the `ForeignCall` arm of `VM::process_opcode`
(`for (destination, output) in destinations.iter().zip(values)`), with the
`invalid_foreign_call_result = true; break` path returning the flag and the
`unreachable!` kind mismatches returning `none`. -/
def writeForeignOutputs (v : VM) : List (RegisterOrMemory × ForeignCallOutput) →
    Option (VM × Bool)
  | [] => some (v, false)
  | (destination, output) :: rest =>
    match destination, output with
    | .registerIndex valueIndex, .single value =>
        writeForeignOutputs { v with registers := Registers.set v.registers valueIndex value } rest
    | .registerIndex _, _ => none
    | .heapArray pointerIndex size, .array values =>
        if values.length ≠ size then some (v, true)
        else
          writeForeignOutputs
            { v with memory :=
                Memory.writeSlice v.memory (Registers.get v.registers pointerIndex).toUsize values } rest
    | .heapArray _ _, _ => none
    | .heapVector pointerIndex sizeIndex, .array values =>
        let v1 := { v with registers := Registers.set v.registers sizeIndex (Value.toUsize values.length) }
        writeForeignOutputs
          { v1 with memory :=
              Memory.writeSlice v1.memory (Registers.get v1.registers pointerIndex).toUsize values } rest
    | .heapVector _ _, _ => none

/-- `VM::process_opcode`; `none` models the panics (bytecode indexing out of
bounds and the `unreachable!` foreign-call kind mismatches). -/
def processOpcode (v : VM) : Option VM :=
  match v.bytecode[v.programCounter]? with
  | none => none
  | some opcode =>
    match opcode with
    | .binaryFieldOp op lhs rhs result =>
        some (v.processBinaryFieldOp op lhs rhs result).incrementProgramCounter
    | .binaryIntOp op bitSize lhs rhs result =>
        some (v.processBinaryIntOp op bitSize lhs rhs result).incrementProgramCounter
    | .jump destination => some (v.setProgramCounter destination)
    | .jumpIf condition destination =>
        let conditionValue := Registers.get v.registers condition
        if !conditionValue.isZero then some (v.setProgramCounter destination)
        else some v.incrementProgramCounter
    | .jumpIfNot condition destination =>
        let conditionValue := Registers.get v.registers condition
        if conditionValue.isZero then some (v.setProgramCounter destination)
        else some v.incrementProgramCounter
    | .ret =>
        match v.callStack with
        | register :: rest =>
            some (VM.setProgramCounter { v with callStack := rest } register.toUsize)
        | [] => some (v.fail "return opcode hit, but callstack already empty")
    | .foreignCall function destinations inputs =>
        if v.foreignCallResults.length ≤ v.foreignCallCounter then
          some (v.waitForForeignCall function
            (inputs.map (fun input => v.getRegisterValueOrMemoryValues input)))
        else
          match v.foreignCallResults[v.foreignCallCounter]? with
          | none => none
          | some result =>
            match v.writeForeignOutputs (destinations.zip result.values) with
            | none => none
            | some (v1, invalidForeignCallResult) =>
              let nv := result.values.length
              let nd := destinations.length
              let v2 :=
                if nd ≠ nv then
                  v1.fail (toString nv ++
                    " output values were provided as a foreign call result for " ++
                    toString nd ++ " destination slots")
                else v1
              let v3 :=
                if invalidForeignCallResult then
                  v2.fail "Function result size does not match brillig bytecode"
                else v2
              let v4 := { v3 with foreignCallCounter := v3.foreignCallCounter + 1 }
              some v4.incrementProgramCounter
    | .mov destinationRegister sourceRegister =>
        let sourceValue := Registers.get v.registers sourceRegister
        some (VM.incrementProgramCounter
          { v with registers := Registers.set v.registers destinationRegister sourceValue })
    | .trap => some (v.fail "explicit trap hit in brillig")
    | .stop => some v.finish
    | .load destinationRegister sourcePointer =>
        let source := Registers.get v.registers sourcePointer
        let value := Memory.read v.memory source.toUsize
        some (VM.incrementProgramCounter
          { v with registers := Registers.set v.registers destinationRegister value })
    | .store destinationPointer sourceRegister =>
        let destination := (Registers.get v.registers destinationPointer).toUsize
        let stored := Memory.write v.memory destination (Registers.get v.registers sourceRegister)
        some (VM.incrementProgramCounter { v with memory := stored })
    | .call location =>
        some (VM.setProgramCounter
          { v with callStack := (v.programCounter + 1 : Value) :: v.callStack } location)
    | .const destination value =>
        some (VM.incrementProgramCounter
          { v with registers := Registers.set v.registers destination value })

/-- The step taken from `v` is a full execution of a `ForeignCall` opcode
(one that consumes an entry of `foreign_call_results`). -/
def fullyExecutesForeignCall (v : VM) : Bool :=
  match v.bytecode[v.programCounter]? with
  | some (.foreignCall _ _ _) => decide (v.foreignCallCounter < v.foreignCallResults.length)
  | _ => false

/-- The driver loop `VM::process_opcodes` with an explicit step budget,
instrumented with the count of steps that fully execute a `ForeignCall`
opcode; stepping stops as soon as the status leaves `InProgress`. -/
def stepsCount : Nat → VM → Option (VM × Nat)
  | 0, v => some (v, 0)
  | n + 1, v =>
    if v.status = VMStatus.inProgress then
      match processOpcode v with
      | none => none
      | some v1 =>
        match stepsCount n v1 with
        | none => none
        | some (vf, k) => some (vf, k + (if fullyExecutesForeignCall v then 1 else 0))
    else some (v, 0)

end VM

end BrilligVM

/-- `ForeignCallWaitInfo`, the argument package of a pending foreign call.
Its defining file `acvm/src/pwg/brillig.rs` is not in the snapshot; fields
per spec §6: `{function_name, inputs: [[Value]]}`. -/
structure ForeignCallWaitInfo where
  function : String
  inputs : List (List BrilligVM.Value)
deriving DecidableEq, Repr

/-- `OpcodeResolution`, from `acvm/src/pwg/mod.rs`. -/
inductive OpcodeResolution where
  | solved
  | stalled (reason : OpcodeNotSolvable)
  | inProgress
  | inProgressBrillig (waitInfo : ForeignCallWaitInfo)
deriving DecidableEq, Repr

/-- `FunctionInput`, from `acir/src/circuit/opcodes.rs` (file not in the
snapshot): a witness together with its bit width, per spec §4.4. -/
structure FunctionInput where
  witness : Witness
  numBits : Nat
deriving DecidableEq, Repr

/-- `BlackBoxFuncCall`, with the variants and fields matched by
`acvm/src/pwg/blackbox/mod.rs` (the defining `acir` file is not in the
snapshot; payloads of delegated variants are per spec §4.4/§6). -/
inductive BlackBoxFuncCall where
  | AND (lhs rhs : FunctionInput) (output : Witness)
  | XOR (lhs rhs : FunctionInput) (output : Witness)
  | RANGE (input : FunctionInput)
  | SHA256 (inputs : List FunctionInput) (outputs : List Witness)
  | Blake2s (inputs : List FunctionInput) (outputs : List Witness)
  | Keccak256 (inputs : List FunctionInput) (outputs : List Witness)
  | Keccak256VariableLength (inputs : List FunctionInput) (varMessageSize : FunctionInput)
      (outputs : List Witness)
  | HashToField128Security (inputs : List FunctionInput) (output : Witness)
  | SchnorrVerify (publicKeyX publicKeyY signatureS signatureE : FunctionInput)
      (message : List FunctionInput) (output : Witness)
  | Pedersen (inputs : List FunctionInput) (domainSeparator : Nat)
      (outputs : Witness × Witness)
  | EcdsaSecp256k1 (publicKeyX publicKeyY signature hashedMessage : List FunctionInput)
      (output : Witness)
  | FixedBaseScalarMul (input : FunctionInput) (outputs : Witness × Witness)
  | RecursiveAggregation (inputs : List FunctionInput)
deriving DecidableEq, Repr

namespace BlackBoxFuncCall

/-- Modelled from the spec: `BlackBoxFuncCall::get_inputs_vec` — "every input
witness listed by the call" in the call's input order (§4.4); the defining
`acir` file is not in the snapshot. -/
def getInputsVec : BlackBoxFuncCall → List FunctionInput
  | .AND lhs rhs _ => [lhs, rhs]
  | .XOR lhs rhs _ => [lhs, rhs]
  | .RANGE input => [input]
  | .SHA256 inputs _ => inputs
  | .Blake2s inputs _ => inputs
  | .Keccak256 inputs _ => inputs
  | .Keccak256VariableLength inputs varMessageSize _ => inputs ++ [varMessageSize]
  | .HashToField128Security inputs _ => inputs
  | .SchnorrVerify publicKeyX publicKeyY signatureS signatureE message _ =>
      [publicKeyX, publicKeyY, signatureS, signatureE] ++ message
  | .Pedersen inputs _ _ => inputs
  | .EcdsaSecp256k1 publicKeyX publicKeyY signature hashedMessage _ =>
      publicKeyX ++ publicKeyY ++ signature ++ hashedMessage
  | .FixedBaseScalarMul input _ => [input]
  | .RecursiveAggregation inputs => inputs

/-- `BlackBoxFuncCall::get_black_box_func` (tag extraction). -/
def getBlackBoxFunc : BlackBoxFuncCall → BlackBoxFunc
  | .AND _ _ _ => BlackBoxFunc.AND
  | .XOR _ _ _ => BlackBoxFunc.XOR
  | .RANGE _ => BlackBoxFunc.RANGE
  | .SHA256 _ _ => BlackBoxFunc.SHA256
  | .Blake2s _ _ => BlackBoxFunc.Blake2s
  | .Keccak256 _ _ => BlackBoxFunc.Keccak256
  | .Keccak256VariableLength _ _ _ => BlackBoxFunc.Keccak256
  | .HashToField128Security _ _ => BlackBoxFunc.HashToField128Security
  | .SchnorrVerify _ _ _ _ _ _ => BlackBoxFunc.SchnorrVerify
  | .Pedersen _ _ _ => BlackBoxFunc.Pedersen
  | .EcdsaSecp256k1 _ _ _ _ _ => BlackBoxFunc.EcdsaSecp256k1
  | .FixedBaseScalarMul _ _ => BlackBoxFunc.FixedBaseScalarMul
  | .RecursiveAggregation _ => BlackBoxFunc.RecursiveAggregation

end BlackBoxFuncCall

namespace Blackbox

/-- Result type of a blackbox sub-solver acting on the (by-`&mut`) witness
map: the updated map together with the resolution or a fatal error. -/
abbrev BBResult := WitnessMap × Except OpcodeResolutionError OpcodeResolution

/-- `first_missing_assignment`, from `acvm/src/pwg/blackbox/mod.rs` lines
24–35: the first input in the call's input order whose witness has no
assignment. -/
def firstMissingAssignment (witnessAssignments : WitnessMap) :
    List FunctionInput → Option Witness
  | [] => none
  | input :: rest =>
    if witnessAssignments.containsKey input.witness then
      firstMissingAssignment witnessAssignments rest
    else some input.witness

/-- `contains_all_inputs`, from `acvm/src/pwg/blackbox/mod.rs` lines 38–40. -/
def containsAllInputs (witnessAssignments : WitnessMap) (inputs : List FunctionInput) : Bool :=
  inputs.all (fun input => witnessAssignments.containsKey input.witness)

/-- The kind-specific solvers and backend hooks the dispatcher routes to.
Their defining files (`blackbox/{hash,logic,range,ecdsa}.rs` and the backend
trait) are not in the snapshot, so each match arm's target is a parameter
receiving exactly the arguments the source passes it. -/
structure Handlers where
  and : WitnessMap → FunctionInput → FunctionInput → Witness → BBResult
  xor : WitnessMap → FunctionInput → FunctionInput → Witness → BBResult
  range : WitnessMap → FunctionInput → BBResult
  sha256 : WitnessMap → List FunctionInput → List Witness → BBResult
  blake2s : WitnessMap → List FunctionInput → List Witness → BBResult
  keccak256 : WitnessMap → List FunctionInput → List Witness → BBResult
  keccak256Var : WitnessMap → List FunctionInput → FunctionInput → List Witness → BBResult
  hashToField : WitnessMap → List FunctionInput → Witness → BBResult
  schnorrVerify : WitnessMap → FunctionInput → FunctionInput → FunctionInput → FunctionInput →
      List FunctionInput → Witness → BBResult
  pedersen : WitnessMap → List FunctionInput → Nat → Witness × Witness → BBResult
  ecdsa : WitnessMap → List FunctionInput → List FunctionInput → List FunctionInput →
      List FunctionInput → Witness → BBResult
  fixedBaseScalarMul : WitnessMap → FunctionInput → Witness × Witness → BBResult

/-- The `match bb_func` routing of `acvm/src/pwg/blackbox/mod.rs` lines
56–134 (the `RecursiveAggregation` arm resolves to `Solved` in place). -/
def dispatch (h : Handlers) (initialWitness : WitnessMap) : BlackBoxFuncCall → BBResult
  | .AND lhs rhs output => h.and initialWitness lhs rhs output
  | .XOR lhs rhs output => h.xor initialWitness lhs rhs output
  | .RANGE input => h.range initialWitness input
  | .SHA256 inputs outputs => h.sha256 initialWitness inputs outputs
  | .Blake2s inputs outputs => h.blake2s initialWitness inputs outputs
  | .Keccak256 inputs outputs => h.keccak256 initialWitness inputs outputs
  | .Keccak256VariableLength inputs varMessageSize outputs =>
      h.keccak256Var initialWitness inputs varMessageSize outputs
  | .HashToField128Security inputs output => h.hashToField initialWitness inputs output
  | .SchnorrVerify publicKeyX publicKeyY signatureS signatureE message output =>
      h.schnorrVerify initialWitness publicKeyX publicKeyY signatureS signatureE message output
  | .Pedersen inputs domainSeparator outputs =>
      h.pedersen initialWitness inputs domainSeparator outputs
  | .EcdsaSecp256k1 publicKeyX publicKeyY signature hashedMessage output =>
      h.ecdsa initialWitness publicKeyX publicKeyY signature hashedMessage output
  | .FixedBaseScalarMul input outputs => h.fixedBaseScalarMul initialWitness input outputs
  | .RecursiveAggregation _ => (initialWitness, Except.ok OpcodeResolution.solved)

/-- `blackbox::solve`, from `acvm/src/pwg/blackbox/mod.rs` lines 42–135:
stall with the first missing input assignment when not all inputs are
assigned, otherwise route by kind. -/
def solve (h : Handlers) (initialWitness : WitnessMap) (bbFunc : BlackBoxFuncCall) : BBResult :=
  let inputs := bbFunc.getInputsVec
  if !containsAllInputs initialWitness inputs then
    match firstMissingAssignment initialWitness inputs with
    | some unassignedWitness =>
        (initialWitness,
          Except.ok (OpcodeResolution.stalled
            (OpcodeNotSolvable.missingAssignment unassignedWitness.index)))
    | none => (initialWitness, Except.ok (OpcodeResolution.stalled
        (OpcodeNotSolvable.missingAssignment 0)))
  else dispatch h initialWitness bbFunc

end Blackbox

/-- The `Brillig` opcode payload owned by the circuit. Its defining `acir`
file is not in the snapshot; fields per spec §3 "Bytecode program —
{ bytecode: [VMOp], foreign_call_results: [FCResult] }". -/
structure Brillig where
  bytecode : List BrilligVM.Opcode
  foreignCallResults : List BrilligVM.ForeignCallResult
deriving DecidableEq, Repr

abbrev BlockId := Nat

/-- Modelled from the spec: a memory-block trace entry
`(index_expr, value_expr, op_flag)` (§3); the defining `acir` file is not in
the snapshot. -/
structure TraceEntry where
  indexExpr : Expression
  valueExpr : Expression
  isWrite : Bool
deriving DecidableEq, Repr

/-- Modelled from the spec: the `MemoryBlock{id, trace}` opcode payload (§3). -/
structure MemBlock where
  id : BlockId
  trace : List TraceEntry
deriving DecidableEq, Repr

/-- `Directive`, from `crates/acir/src/circuit/gate.rs`: unconstrained
assignment hints (`Invert { x, result }`). -/
inductive Directive where
  | invert (x result : Witness)
deriving DecidableEq, Repr

/-- The circuit-level `Opcode` enum, with the variants matched by
`ACVM::solve` in `acvm/src/pwg/mod.rs` (its defining `acir` file is not in
the snapshot). -/
inductive ACOpcode where
  | arithmetic (expr : Expression)
  | blackBoxFuncCall (bbFunc : BlackBoxFuncCall)
  | directive (d : Directive)
  | block (b : MemBlock)
  | rom (b : MemBlock)
  | ram (b : MemBlock)
  | brillig (b : Brillig)
deriving DecidableEq, Repr

/-- `UnresolvedBrilligCall`, from `acvm/src/pwg/mod.rs` lines 294–303. -/
structure UnresolvedBrilligCall where
  brillig : Brillig
  foreignCallWaitInfo : ForeignCallWaitInfo
deriving DecidableEq, Repr

/-- `UnresolvedBrilligCall::resolve`, from `acvm/src/pwg/mod.rs` lines
305–314: push the foreign call's result onto the calling Brillig opcode. -/
def UnresolvedBrilligCall.resolve (u : UnresolvedBrilligCall)
    (foreignCallResult : BrilligVM.ForeignCallResult) : Brillig :=
  { u.brillig with foreignCallResults := u.brillig.foreignCallResults ++ [foreignCallResult] }

/-- The ACVM session state, from `acvm/src/pwg/mod.rs` lines 87–100. The
`backend` and the per-block `block_solvers` only influence execution through
the sub-solver calls, which this embedding abstracts as a `Resolver`
parameter (their defining files are not in the snapshot). -/
structure Acvm where
  opcodes : List ACOpcode
  witnessMap : WitnessMap
  pendingForeignCalls : List UnresolvedBrilligCall

namespace Acvm

/-- `ACVM::witness_map` (lines 116–118): a view of the current witness map. -/
def witness_map (a : Acvm) : WitnessMap := a.witnessMap

/-- `ACVM::unresolved_opcodes` (lines 123–125). -/
def unresolved_opcodes (a : Acvm) : List ACOpcode := a.opcodes

/-- `ACVM::get_pending_foreign_call` (lines 136–138). -/
def getPendingForeignCall (a : Acvm) : Option ForeignCallWaitInfo :=
  a.pendingForeignCalls.head?.map (fun foreignCall => foreignCall.foreignCallWaitInfo)

/-- `ACVM::finalize` (lines 128–133), as written in the source: panic
(modelled as `none`) when `self.opcodes.is_empty() ||
self.get_pending_foreign_call().is_some()`, else return the witness map. -/
def finalize (a : Acvm) : Option WitnessMap :=
  if a.opcodes.isEmpty || (a.getPendingForeignCall).isSome then none
  else some a.witnessMap

/-- `ACVM::resolve_pending_foreign_call` (lines 141–148): remove the first
pending call, inject the result, and reinsert the updated Brillig opcode at
the front of the opcode list; `none` models the `remove(0)` panic on an
empty queue. -/
def resolvePendingForeignCall (a : Acvm) (foreignCallResult : BrilligVM.ForeignCallResult) :
    Option Acvm :=
  match a.pendingForeignCalls with
  | [] => none
  | foreignCall :: rest =>
    let resolvedBrillig := foreignCall.resolve foreignCallResult
    some { a with
      pendingForeignCalls := rest
      opcodes := ACOpcode.brillig resolvedBrillig :: a.opcodes }

end Acvm

/-- A sub-solver oracle: given the witness map and an opcode, produce the
mutated map together with the opcode's resolution or a fatal error (the map
mutation persists in the error case, as the sub-solvers work through
`&mut`). The arithmetic, directive, block and Brillig sub-solvers called by
`ACVM::solve` live in files absent from the snapshot, so the solve loop is
verified for every resolver. -/
abbrev Resolver := WitnessMap → ACOpcode → WitnessMap × Except OpcodeResolutionError OpcodeResolution

/-- The Brillig payload recovered from an opcode in the `InProgressBrillig`
arm of `ACVM::solve` (lines 193–196); the source marks the non-Brillig case
`unreachable!`, and no resolver produced by the sub-solvers reaches it. -/
def brilligOfOpcode : ACOpcode → Brillig
  | ACOpcode.brillig b => b
  | _ => { bytecode := [], foreignCallResults := [] }

/-- How a solve round ends: completed (with the retained opcodes, the stall
flag and the first recorded stall reason), aborted by a fatal error, or hit
the source's `unreachable!` for an `Err(OpcodeNotSolvable)` (lines 212–214). -/
inductive RoundExit where
  | completed (unresolved : List ACOpcode) (stalled : Bool)
      (firstStall : Option OpcodeNotSolvable)
  | fatal (e : OpcodeResolutionError)
  | panicked
deriving Repr

/-- The `for opcode in &self.opcodes` body of `ACVM::solve` (lines 163–217),
threading the witness map and the pending-call queue and accumulating the
retained opcodes, the round's `stalled` flag and the first recorded
`opcode_not_solvable`. -/
def roundGo (r : Resolver) : List ACOpcode → WitnessMap → List UnresolvedBrilligCall →
    List ACOpcode → Bool → Option OpcodeNotSolvable →
    WitnessMap × List UnresolvedBrilligCall × RoundExit
  | [], m, p, unresolved, stalled, firstStall => (m, p, RoundExit.completed unresolved stalled firstStall)
  | opcode :: rest, m, p, unresolved, stalled, firstStall =>
    let step := r m opcode
    match step.2 with
    | Except.ok OpcodeResolution.solved => roundGo r rest step.1 p unresolved false firstStall
    | Except.ok OpcodeResolution.inProgress =>
        roundGo r rest step.1 p (unresolved ++ [opcode]) false firstStall
    | Except.ok (OpcodeResolution.inProgressBrillig waitInfo) =>
        roundGo r rest step.1
          (p ++ [{ brillig := brilligOfOpcode opcode, foreignCallWaitInfo := waitInfo }])
          unresolved false firstStall
    | Except.ok (OpcodeResolution.stalled notSolvable) =>
        roundGo r rest step.1 p (unresolved ++ [opcode]) stalled
          (match firstStall with
           | none => some notSolvable
           | some s => some s)
    | Except.error (OpcodeResolutionError.opcodeNotSolvable _) => (step.1, p, RoundExit.panicked)
    | Except.error e => (step.1, p, RoundExit.fatal e)

/-- The stall reasons recorded during one round, in round order (the round
records no reason past a fatal error). -/
def roundStallReasons (r : Resolver) : List ACOpcode → WitnessMap → List OpcodeNotSolvable
  | [], _ => []
  | opcode :: rest, m =>
    let step := r m opcode
    match step.2 with
    | Except.ok (OpcodeResolution.stalled notSolvable) => notSolvable :: roundStallReasons r rest step.1
    | Except.error _ => []
    | _ => roundStallReasons r rest step.1

/-- How `ACVM::solve` halts in this embedding: the two source statuses, a
fatal error, a modelled panic, or exhaustion of the explicit round budget. -/
inductive SolveOutcome where
  | solved
  | requiresForeignCall
  | fatal (e : OpcodeResolutionError)
  | panicked
  | outOfFuel
deriving DecidableEq, Repr

/-- `ACVM::solve` (lines 156–236) with an explicit round budget `fuel`:
while the opcode list is nonempty, run a round; then, in source order,
return `RequiresForeignCall` if a pending call is waiting, fail with the
first recorded stall reason if the round made no progress and opcodes
remain, and otherwise start the next round (returning `Solved` once the
opcode list is empty). The final `Acvm` is the session state at the point
of return (`self` after the `&mut` borrow ends). -/
def solve (r : Resolver) : Nat → Acvm → SolveOutcome × Acvm
  | fuel, a =>
    if a.opcodes.isEmpty then (SolveOutcome.solved, a)
    else
      match fuel with
      | 0 => (SolveOutcome.outOfFuel, a)
      | fuel1 + 1 =>
        match roundGo r a.opcodes a.witnessMap a.pendingForeignCalls [] true none with
        | (m1, p1, RoundExit.panicked) =>
            (SolveOutcome.panicked, { a with witnessMap := m1, pendingForeignCalls := p1 })
        | (m1, p1, RoundExit.fatal e) =>
            (SolveOutcome.fatal e, { a with witnessMap := m1, pendingForeignCalls := p1 })
        | (m1, p1, RoundExit.completed unresolved stalled firstStall) =>
            let a1 : Acvm :=
              { opcodes := unresolved, witnessMap := m1, pendingForeignCalls := p1 }
            if !p1.isEmpty then (SolveOutcome.requiresForeignCall, a1)
            else if stalled && !unresolved.isEmpty then
              match firstStall with
              | some reason =>
                  (SolveOutcome.fatal (OpcodeResolutionError.opcodeNotSolvable reason), a1)
              | none => (SolveOutcome.panicked, a1)
            else solve r fuel1 a1

/-- `m1` is contained in `m2` as a partial map. -/
def WitnessMap.submap (m1 m2 : WitnessMap) : Prop :=
  ∀ w v, m1.lookup w = some v → m2.lookup w = some v

/-- The resolver only ever extends the witness map, as `insert_value`-based
sub-solvers do. -/
def ResolverMonotone (r : Resolver) : Prop :=
  ∀ m op, WitnessMap.submap m (r m op).1

/-- The program-counter invariant of spec §4.5: while the VM is in progress,
the counter points into the bytecode. -/
def BrilligVM.VM.pcInvariant (v : BrilligVM.VM) : Prop :=
  v.status = BrilligVM.VMStatus.inProgress → v.programCounter < v.bytecode.length

/-- A trivial handler assignment used to exercise the dispatcher on concrete
calls. -/
def trivialHandlers : Blackbox.Handlers where
  and := fun m _ _ _ => (m, Except.ok OpcodeResolution.solved)
  xor := fun m _ _ _ => (m, Except.ok OpcodeResolution.solved)
  range := fun m _ => (m, Except.ok OpcodeResolution.solved)
  sha256 := fun m _ _ => (m, Except.ok OpcodeResolution.solved)
  blake2s := fun m _ _ => (m, Except.ok OpcodeResolution.solved)
  keccak256 := fun m _ _ => (m, Except.ok OpcodeResolution.solved)
  keccak256Var := fun m _ _ _ => (m, Except.ok OpcodeResolution.solved)
  hashToField := fun m _ _ => (m, Except.ok OpcodeResolution.solved)
  schnorrVerify := fun m _ _ _ _ _ _ => (m, Except.ok OpcodeResolution.solved)
  pedersen := fun m _ _ _ => (m, Except.ok OpcodeResolution.solved)
  ecdsa := fun m _ _ _ _ _ => (m, Except.ok OpcodeResolution.solved)
  fixedBaseScalarMul := fun m _ _ => (m, Except.ok OpcodeResolution.solved)


instance : DecidableEq WitnessMap :=
  inferInstanceAs (DecidableEq (List (Witness × FieldElement)))

namespace WitnessMap

theorem lookup_insertB_self (m : WitnessMap) (w : Witness) (v : FieldElement) :
    (m.insertB w v).lookup w = some v := by
  induction m with
  | nil => simp [insertB, lookup]
  | cons head rest ih =>
    obtain ⟨w0, v0⟩ := head
    by_cases h : w0 = w
    · simp [insertB, lookup, h]
    · simp [insertB, lookup, h, ih]

theorem insertB_of_lookup_eq (m : WitnessMap) (w : Witness) (v : FieldElement)
    (h : m.lookup w = some v) : m.insertB w v = m := by
  induction m with
  | nil => simp [lookup] at h
  | cons head rest ih =>
    obtain ⟨w0, v0⟩ := head
    by_cases hw : w0 = w
    · simp [lookup, hw] at h
      simp [insertB, hw, h]
    · simp [lookup, hw] at h
      simp [insertB, hw, ih h]

theorem lookup_insertB_ne (m : WitnessMap) (w w1 : Witness) (v : FieldElement)
    (h : w1 ≠ w) : (m.insertB w v).lookup w1 = m.lookup w1 := by
  have hne : ¬ (w = w1) := fun hx => h hx.symm
  induction m with
  | nil => simp [insertB, lookup, hne]
  | cons head rest ih =>
    obtain ⟨w0, v0⟩ := head
    by_cases hw : w0 = w
    · subst hw
      simp [insertB, lookup, hne]
    · by_cases hx : w0 = w1
      · subst hx
        simp [insertB, lookup, hw, h]
      · simp [insertB, lookup, hw, hx, ih]

end WitnessMap

/-- C2 (amended): `insert_value` is insertion-idempotent under equality — a
second insertion of the value already held succeeds and leaves the map
unchanged, an insertion over a different value fails with
`UnsatisfiedConstrain` (the map retaining the newly inserted value), and a
first insertion succeeds; but the legacy hash solvers write their two digest
output witnesses with unchecked insertion, overwriting any existing values
without signalling any error. -/
theorem insert_value_discipline :
    (∀ (m : WitnessMap) (w : Witness) (v : FieldElement),
      m.lookup w = some v → insert_value w v m = (m, Except.ok ())) ∧
    (∀ (m : WitnessMap) (w : Witness) (v oldValue : FieldElement),
      m.lookup w = some oldValue → oldValue ≠ v →
      insert_value w v m =
        (m.insertB w v, Except.error OpcodeResolutionError.unsatisfiedConstrain)) ∧
    (∀ (m : WitnessMap) (w : Witness) (v : FieldElement),
      m.lookup w = none → insert_value w v m = (m.insertB w v, Except.ok ())) ∧
    (∀ (m : WitnessMap) (o0 o1 : Witness) (low high : FieldElement), o0 ≠ o1 →
      ∃ m1, sha256WriteOutputs [o0, o1] low high m = some m1 ∧
        m1.lookup o0 = some low ∧ m1.lookup o1 = some high) := by
  refine ⟨?_, ?_, ?_, ?_⟩
  · intro m w v h
    simp [insert_value, h, WitnessMap.insertB_of_lookup_eq m w v h]
  · intro m w v oldValue h hne
    simp [insert_value, h, hne]
  · intro m w v h
    simp [insert_value, h]
  · intro m o0 o1 low high hne
    refine ⟨(m.insertB o0 low).insertB o1 high, rfl, ?_, ?_⟩
    · rw [WitnessMap.lookup_insertB_ne _ _ _ _ hne,
        WitnessMap.lookup_insertB_self]
    · exact WitnessMap.lookup_insertB_self _ _ _

/-- Witness for C2's theorem at concrete inputs. -/
theorem insert_value_discipline_witness :
    insert_value ⟨0⟩ 5 [(⟨0⟩, 5)] = ([(⟨0⟩, 5)], Except.ok ()) ∧
    insert_value ⟨0⟩ 7 [(⟨0⟩, 5)] =
      ([(⟨0⟩, 7)], Except.error OpcodeResolutionError.unsatisfiedConstrain) ∧
    insert_value ⟨1⟩ 7 [(⟨0⟩, 5)] = ([(⟨0⟩, 5), (⟨1⟩, 7)], Except.ok ()) := by
  refine ⟨?_, ?_, ?_⟩
  · exact insert_value_discipline.1 [(⟨0⟩, 5)] ⟨0⟩ 5 rfl
  · have h := insert_value_discipline.2.1 [(⟨0⟩, 5)] ⟨0⟩ 7 5 rfl (by decide)
    simpa [WitnessMap.insertB] using h
  · have h := insert_value_discipline.2.2.1 [(⟨0⟩, 5)] ⟨1⟩ 7 (by decide)
    simpa [WitnessMap.insertB] using h

/-- C2 counterexample: the legacy `sha256` solver's write-back, applied to a
map that already assigns a different value (5) to the first digest output
witness, succeeds and silently overwrites it with the digest half (7) —
no `UnsatisfiedConstrain` is raised, contrary to the claim that the
insertion discipline applies to the hash solvers. -/
theorem sha256_write_overwrites_counterexample :
    WitnessMap.lookup [(⟨0⟩, 5)] ⟨0⟩ = some 5 ∧
    sha256WriteOutputs [⟨0⟩, ⟨1⟩] 7 9 [(⟨0⟩, 5)] = some [(⟨0⟩, 7), (⟨1⟩, 9)] ∧
    (5 : FieldElement) ≠ 7 := by
  refine ⟨rfl, ?_, by decide⟩
  simp [sha256WriteOutputs, WitnessMap.insertB]

/-- C1 (code bug): a session whose opcode list is empty and whose
pending-foreign-call queue is empty — exactly the claim's precondition —
makes `finalize` take the panic branch (`none`), because the source's guard
`self.opcodes.is_empty() || self.get_pending_foreign_call().is_some()`
panics on an *empty* opcode list, inverting the intended readiness check. -/
theorem finalize_panics_on_solved_session :
    (solve (fun m _ => (m, Except.ok OpcodeResolution.solved)) 1
        { opcodes := [], witnessMap := [(⟨0⟩, 5)], pendingForeignCalls := [] }).1 =
      SolveOutcome.solved ∧
    Acvm.getPendingForeignCall
        { opcodes := [], witnessMap := [(⟨0⟩, 5)], pendingForeignCalls := [] } = none ∧
    Acvm.finalize
        { opcodes := [], witnessMap := [(⟨0⟩, 5)], pendingForeignCalls := [] } = none := by
  refine ⟨?_, rfl, rfl⟩
  rw [solve]
  rfl

/-- C4: with at least one pending foreign call, `resolve_pending_foreign_call`
removes the earliest pending call, appends the supplied result to that
Brillig opcode's `foreign_call_results` (so the list grows by exactly the new
result, preserving all earlier results), and reinserts the updated Brillig
opcode at position 0 of the remaining-opcode list. -/
theorem resolve_pending_foreign_call_spec (a : Acvm) (foreignCall : UnresolvedBrilligCall)
    (rest : List UnresolvedBrilligCall) (result : BrilligVM.ForeignCallResult)
    (h : a.pendingForeignCalls = foreignCall :: rest) :
    a.resolvePendingForeignCall result = some
      { a with
        pendingForeignCalls := rest
        opcodes := ACOpcode.brillig
          { bytecode := foreignCall.brillig.bytecode
            foreignCallResults := foreignCall.brillig.foreignCallResults ++ [result] }
          :: a.opcodes } := by
  simp [Acvm.resolvePendingForeignCall, h, UnresolvedBrilligCall.resolve]

/-- Witness for C4's theorem at a concrete session. -/
theorem resolve_pending_foreign_call_spec_witness :
    Acvm.resolvePendingForeignCall
      { opcodes := []
        witnessMap := []
        pendingForeignCalls :=
          [{ brillig := { bytecode := [], foreignCallResults := [{ values := [] }] }
             foreignCallWaitInfo := { function := "f", inputs := [] } }] }
      { values := [BrilligVM.ForeignCallOutput.single 10] } = some
      { opcodes :=
          [ACOpcode.brillig
            { bytecode := []
              foreignCallResults :=
                [{ values := [] }, { values := [BrilligVM.ForeignCallOutput.single 10] }] }]
        witnessMap := []
        pendingForeignCalls := [] } := by
  have h := resolve_pending_foreign_call_spec
    { opcodes := []
      witnessMap := []
      pendingForeignCalls :=
        [{ brillig := { bytecode := [], foreignCallResults := [{ values := [] }] }
           foreignCallWaitInfo := { function := "f", inputs := [] } }] }
    { brillig := { bytecode := [], foreignCallResults := [{ values := [] }] }
      foreignCallWaitInfo := { function := "f", inputs := [] } }
    [] { values := [BrilligVM.ForeignCallOutput.single 10] } rfl
  simpa using h

/-- C5: executing a `ForeignCall` opcode whose results are not yet available
(`foreign_call_counter ≥ |foreign_call_results|`) resolves each input to its
concrete list of values and suspends with `ForeignCallWait` carrying the
function name and those inputs, leaving the program counter, registers,
memory, call stack and foreign-call counter unchanged — so on resume the
same opcode re-executes. -/
theorem foreign_call_suspends (v : BrilligVM.VM) (function : String)
    (destinations inputs : List BrilligVM.RegisterOrMemory)
    (hfetch : v.bytecode[v.programCounter]? =
      some (BrilligVM.Opcode.foreignCall function destinations inputs))
    (hwait : v.foreignCallResults.length ≤ v.foreignCallCounter) :
    BrilligVM.VM.processOpcode v = some
      { v with status := BrilligVM.VMStatus.foreignCallWait function (inputs.map (fun input => BrilligVM.VM.getRegisterValueOrMemoryValues v input)) } := by
  unfold BrilligVM.VM.processOpcode
  rw [hfetch]
  simp [hwait, BrilligVM.VM.waitForForeignCall]

/-- Witness for C5's theorem: a one-opcode program waiting on `"double"`. -/
theorem foreign_call_suspends_witness :
    BrilligVM.VM.processOpcode
      (BrilligVM.VM.new [5]
        [] [BrilligVM.Opcode.foreignCall "double"
              [BrilligVM.RegisterOrMemory.registerIndex 1]
              [BrilligVM.RegisterOrMemory.registerIndex 0]] []) = some
      { registers := [5]
        programCounter := 0
        foreignCallCounter := 0
        foreignCallResults := []
        bytecode := [BrilligVM.Opcode.foreignCall "double"
          [BrilligVM.RegisterOrMemory.registerIndex 1]
          [BrilligVM.RegisterOrMemory.registerIndex 0]]
        status := BrilligVM.VMStatus.foreignCallWait "double" [[5]]
        memory := []
        callStack := [] } := by
  have h := foreign_call_suspends
    (BrilligVM.VM.new [5]
      [] [BrilligVM.Opcode.foreignCall "double"
            [BrilligVM.RegisterOrMemory.registerIndex 1]
            [BrilligVM.RegisterOrMemory.registerIndex 0]] [])
    "double" [BrilligVM.RegisterOrMemory.registerIndex 1]
    [BrilligVM.RegisterOrMemory.registerIndex 0] rfl (by decide)
  simpa [BrilligVM.VM.new, BrilligVM.VM.getRegisterValueOrMemoryValues,
    BrilligVM.Registers.get] using h

namespace Blackbox

theorem firstMissing_none_iff_containsAll (m : WitnessMap) (ins : List FunctionInput) :
    firstMissingAssignment m ins = none ↔ containsAllInputs m ins = true := by
  induction ins with
  | nil => simp [firstMissingAssignment, containsAllInputs]
  | cons i rest ih =>
    unfold firstMissingAssignment containsAllInputs
    unfold containsAllInputs at ih
    by_cases h : m.containsKey i.witness = true
    · simp [h, ih]
    · simp [h]

end Blackbox

/-- C8: the blackbox dispatcher first validates its inputs — whenever some
input witness of the call is unassigned, it returns
`Stalled(MissingAssignment(w))` for `w` the first unassigned witness in the
call's input order and leaves the witness map untouched; only when every
listed input is assigned does it route the call to its kind-specific solver
or backend hook (the `match` over the call's variant). -/
theorem blackbox_missing_input_guard :
    (∀ (h : Blackbox.Handlers) (m : WitnessMap) (c : BlackBoxFuncCall) (w : Witness),
      Blackbox.firstMissingAssignment m c.getInputsVec = some w →
      Blackbox.solve h m c =
        (m, Except.ok (OpcodeResolution.stalled (OpcodeNotSolvable.missingAssignment w.index)))) ∧
    (∀ (h : Blackbox.Handlers) (m : WitnessMap) (c : BlackBoxFuncCall),
      Blackbox.firstMissingAssignment m c.getInputsVec = none →
      Blackbox.solve h m c = Blackbox.dispatch h m c) ∧
    (∀ (m : WitnessMap) (ins : List FunctionInput) (w : Witness),
      Blackbox.firstMissingAssignment m ins = some w →
      ∃ pre input suf, ins = pre ++ input :: suf ∧ input.witness = w ∧
        m.containsKey input.witness = false ∧
        ∀ j ∈ pre, m.containsKey j.witness = true) := by
  refine ⟨?_, ?_, ?_⟩
  · intro h m c w hsome
    have hnotall : ¬ (Blackbox.containsAllInputs m c.getInputsVec = true) := by
      intro hall
      rw [← Blackbox.firstMissing_none_iff_containsAll] at hall
      rw [hall] at hsome
      exact Option.noConfusion hsome
    simp [Blackbox.solve, hnotall, hsome]
  · intro h m c hnone
    have hall := (Blackbox.firstMissing_none_iff_containsAll m c.getInputsVec).mp hnone
    simp [Blackbox.solve, hall]
  · intro m ins w hsome
    induction ins with
    | nil => simp [Blackbox.firstMissingAssignment] at hsome
    | cons i rest ih =>
      by_cases hc : m.containsKey i.witness = true
      · have h2 : Blackbox.firstMissingAssignment m rest = some w := by
          simpa [Blackbox.firstMissingAssignment, hc] using hsome
        obtain ⟨pre, input, suf, he, hw, hnc, hall⟩ := ih h2
        refine ⟨i :: pre, input, suf, by simp [he], hw, hnc, ?_⟩
        intro j hj
        rcases List.mem_cons.mp hj with hj | hj
        · subst hj; exact hc
        · exact hall j hj
      · have hiw : i.witness = w := by
          simpa [Blackbox.firstMissingAssignment, hc] using hsome
        exact ⟨[], i, rest, rfl, hiw, Bool.eq_false_iff.mpr hc, by simp⟩

/-- Witness for C8's theorem: a `RANGE` call over unassigned witness 3
stalls with `MissingAssignment 3` and leaves the (empty) map unchanged; an
`AND` call whose second input is the first unassigned one stalls on it. -/
theorem blackbox_missing_input_guard_witness :
    Blackbox.solve trivialHandlers [] (BlackBoxFuncCall.RANGE { witness := ⟨3⟩, numBits := 8 }) =
      ([], Except.ok (OpcodeResolution.stalled (OpcodeNotSolvable.missingAssignment 3))) ∧
    Blackbox.solve trivialHandlers [(⟨1⟩, 0)]
        (BlackBoxFuncCall.AND { witness := ⟨1⟩, numBits := 1 } { witness := ⟨2⟩, numBits := 1 }
          ⟨9⟩) =
      ([(⟨1⟩, 0)],
        Except.ok (OpcodeResolution.stalled (OpcodeNotSolvable.missingAssignment 2))) := by
  constructor
  · have h := blackbox_missing_input_guard.1 trivialHandlers []
      (BlackBoxFuncCall.RANGE { witness := ⟨3⟩, numBits := 8 }) ⟨3⟩ rfl
    simpa using h
  · have h := blackbox_missing_input_guard.1 trivialHandlers [(⟨1⟩, 0)]
      (BlackBoxFuncCall.AND { witness := ⟨1⟩, numBits := 1 } { witness := ⟨2⟩, numBits := 1 }
        ⟨9⟩) ⟨2⟩ (by decide)
    simpa using h

namespace BrilligVM

theorem setProgramCounter_spec (v : VM) (n : Nat) :
    (v.setProgramCounter n).bytecode = v.bytecode ∧
    (v.setProgramCounter n).programCounter = n ∧
    (v.setProgramCounter n).status =
      (if v.bytecode.length ≤ n then VMStatus.finished else v.status) := by
  unfold VM.setProgramCounter
  by_cases h : v.bytecode.length ≤ n <;> simp [h]

theorem postOK_setProgramCounter (v : VM) (n : Nat) :
    VM.pcInvariant (v.setProgramCounter n) ∧
    ((v.setProgramCounter n).bytecode.length ≤ (v.setProgramCounter n).programCounter →
      (v.setProgramCounter n).status = VMStatus.finished) := by
  obtain ⟨hb, hp, hs⟩ := setProgramCounter_spec v n
  by_cases h : v.bytecode.length ≤ n
  · refine ⟨?_, ?_⟩
    · intro hstat
      rw [hs, if_pos h] at hstat
      exact absurd hstat (by simp)
    · intro _
      rw [hs, if_pos h]
  · refine ⟨?_, ?_⟩
    · intro _
      rw [hp, hb]
      omega
    · intro hle
      rw [hp, hb] at hle
      exact absurd hle h

theorem postOK_withStatus (v : VM) (s : VMStatus)
    (hpc : v.programCounter < v.bytecode.length) (hs : s ≠ VMStatus.inProgress) :
    VM.pcInvariant { v with status := s } ∧
    (({ v with status := s } : VM).bytecode.length ≤
        ({ v with status := s } : VM).programCounter →
      ({ v with status := s } : VM).status = VMStatus.finished) := by
  refine ⟨?_, ?_⟩
  · intro hstat
    exact absurd hstat hs
  · intro hle
    exact absurd hle (Nat.not_le.mpr hpc)

end BrilligVM

/-- C7 (amended): every successful step preserves the program-counter
invariant — if the post-step status is `InProgress` the counter points into
the bytecode, so the next step's indexing is in bounds — and any step whose
final counter is at or past the end of the bytecode ends with status
`Finished`; the invariant holds for every VM produced by `VM::new` with a
nonempty bytecode. (`VM::new` with an *empty* bytecode starts `InProgress`
with `pc = len = 0`, violating the invariant — see the counterexample.) -/
theorem pc_invariant_preserved :
    (∀ (v v1 : BrilligVM.VM), BrilligVM.VM.processOpcode v = some v1 →
      BrilligVM.VM.pcInvariant v1 ∧
      (v1.bytecode.length ≤ v1.programCounter → v1.status = BrilligVM.VMStatus.finished)) ∧
    (∀ (inputs : BrilligVM.Registers) (memory : List BrilligVM.Value)
      (bytecode : List BrilligVM.Opcode) (results : List BrilligVM.ForeignCallResult),
      bytecode ≠ [] →
      BrilligVM.VM.pcInvariant (BrilligVM.VM.new inputs memory bytecode results)) := by
  constructor
  · intro v v1 h
    have h0 := h
    unfold BrilligVM.VM.processOpcode at h
    cases hfetch : v.bytecode[v.programCounter]? with
    | none =>
      rw [hfetch] at h
      exact absurd h (by simp)
    | some opcode =>
      rw [hfetch] at h
      have hpc : v.programCounter < v.bytecode.length := by
        by_contra hge
        rw [List.getElem?_eq_none (Nat.le_of_not_lt hge)] at hfetch
        cases hfetch
      cases opcode with
      | binaryFieldOp op lhs rhs result =>
        obtain rfl : _ = v1 := Option.some.inj h
        exact BrilligVM.postOK_setProgramCounter _ _
      | binaryIntOp op bitSize lhs rhs result =>
        obtain rfl : _ = v1 := Option.some.inj h
        exact BrilligVM.postOK_setProgramCounter _ _
      | jump destination =>
        obtain rfl : _ = v1 := Option.some.inj h
        exact BrilligVM.postOK_setProgramCounter _ _
      | jumpIf condition destination =>
        dsimp only at h
        split at h
        · obtain rfl : _ = v1 := Option.some.inj h
          exact BrilligVM.postOK_setProgramCounter _ _
        · obtain rfl : _ = v1 := Option.some.inj h
          exact BrilligVM.postOK_setProgramCounter _ _
      | jumpIfNot condition destination =>
        dsimp only at h
        split at h
        · obtain rfl : _ = v1 := Option.some.inj h
          exact BrilligVM.postOK_setProgramCounter _ _
        · obtain rfl : _ = v1 := Option.some.inj h
          exact BrilligVM.postOK_setProgramCounter _ _
      | ret =>
        dsimp only at h
        cases hcs : v.callStack with
        | cons register rest =>
          rw [hcs] at h
          obtain rfl : _ = v1 := Option.some.inj h
          exact BrilligVM.postOK_setProgramCounter _ _
        | nil =>
          rw [hcs] at h
          obtain rfl : _ = v1 := Option.some.inj h
          exact BrilligVM.postOK_withStatus v _ hpc (by simp)
      | foreignCall function destinations inputs =>
        dsimp only at h
        split at h
        · obtain rfl : _ = v1 := Option.some.inj h
          exact BrilligVM.postOK_withStatus v _ hpc (by simp [BrilligVM.VM.waitForForeignCall])
        · rename_i hnot
          cases hres : v.foreignCallResults[v.foreignCallCounter]? with
          | none => rw [hres] at h; exact absurd h (by simp)
          | some result =>
            cases hwrite : BrilligVM.VM.writeForeignOutputs v (destinations.zip result.values) with
            | none =>
              have hcomp : BrilligVM.VM.processOpcode v = none := by
                unfold BrilligVM.VM.processOpcode
                rw [hfetch]
                dsimp only
                rw [if_neg hnot, hres]
                dsimp only
                rw [hwrite]
              rw [hcomp] at h0
              cases h0
            | some pair =>
              obtain ⟨v2, invalid⟩ := pair
              have hcomp : ∃ w, BrilligVM.VM.processOpcode v =
                  some (BrilligVM.VM.incrementProgramCounter w) := by
                unfold BrilligVM.VM.processOpcode
                rw [hfetch]
                dsimp only
                rw [if_neg hnot, hres]
                dsimp only
                rw [hwrite]
                exact ⟨_, rfl⟩
              obtain ⟨w, hw⟩ := hcomp
              rw [hw] at h0
              obtain rfl : _ = v1 := Option.some.inj h0
              exact BrilligVM.postOK_setProgramCounter _ _
      | mov destinationRegister sourceRegister =>
        obtain rfl : _ = v1 := Option.some.inj h
        exact BrilligVM.postOK_setProgramCounter _ _
      | trap =>
        obtain rfl : _ = v1 := Option.some.inj h
        exact BrilligVM.postOK_withStatus v _ hpc (by simp)
      | stop =>
        obtain rfl : _ = v1 := Option.some.inj h
        exact BrilligVM.postOK_withStatus v _ hpc (by simp)
      | load destinationRegister sourcePointer =>
        obtain rfl : _ = v1 := Option.some.inj h
        exact BrilligVM.postOK_setProgramCounter _ _
      | store destinationPointer sourceRegister =>
        obtain rfl : _ = v1 := Option.some.inj h
        exact BrilligVM.postOK_setProgramCounter _ _
      | call location =>
        obtain rfl : _ = v1 := Option.some.inj h
        exact BrilligVM.postOK_setProgramCounter _ _
      | const destination value =>
        obtain rfl : _ = v1 := Option.some.inj h
        exact BrilligVM.postOK_setProgramCounter _ _
  · intro inputs memory bytecode results hne
    intro _
    simpa [BrilligVM.VM.new] using List.length_pos.mpr hne

/-- C7 counterexample: `VM::new` with an empty bytecode yields status
`InProgress` with `pc = 0 = len(bytecode)`, so the claimed entry invariant
(`pc < len` while `InProgress`) fails for this initial VM, which the claim
explicitly includes; the first `process_opcode` call on it indexes out of
bounds. -/
theorem vm_new_empty_bytecode_counterexample :
    (BrilligVM.VM.new [] [] [] []).status = BrilligVM.VMStatus.inProgress ∧
    ¬ ((BrilligVM.VM.new [] [] [] []).programCounter <
        (BrilligVM.VM.new [] [] [] []).bytecode.length) ∧
    BrilligVM.VM.processOpcode (BrilligVM.VM.new [] [] [] []) = none := by
  refine ⟨rfl, ?_, rfl⟩
  simp [BrilligVM.VM.new]

/-- Witness for C7's theorem: one `Stop` step from a fresh one-opcode VM. -/
theorem pc_invariant_preserved_witness :
    BrilligVM.VM.pcInvariant
      { registers := []
        programCounter := 0
        foreignCallCounter := 0
        foreignCallResults := []
        bytecode := [BrilligVM.Opcode.stop]
        status := BrilligVM.VMStatus.finished
        memory := []
        callStack := [] } ∧
    BrilligVM.VM.pcInvariant (BrilligVM.VM.new [] [] [BrilligVM.Opcode.stop] []) := by
  constructor
  · exact (pc_invariant_preserved.1 (BrilligVM.VM.new [] [] [BrilligVM.Opcode.stop] []) _ rfl).1
  · exact pc_invariant_preserved.2 [] [] [BrilligVM.Opcode.stop] [] (by simp)

namespace BrilligVM

theorem lt_length_of_getElem? {α : Type} (l : List α) (n : Nat) (a : α)
    (h : l[n]? = some a) : n < l.length := by
  by_contra hge
  rw [List.getElem?_eq_none (Nat.le_of_not_lt hge)] at h
  cases h

theorem setProgramCounter_fields (v : VM) (n : Nat) :
    (v.setProgramCounter n).registers = v.registers ∧
    (v.setProgramCounter n).memory = v.memory ∧
    (v.setProgramCounter n).foreignCallCounter = v.foreignCallCounter ∧
    (v.setProgramCounter n).foreignCallResults = v.foreignCallResults ∧
    (v.setProgramCounter n).callStack = v.callStack := by
  unfold VM.setProgramCounter
  by_cases h : v.bytecode.length ≤ n <;> simp [h]

theorem writeForeignOutputs_preserves (l : List (RegisterOrMemory × ForeignCallOutput)) :
    ∀ (v v1 : VM) (b : Bool), VM.writeForeignOutputs v l = some (v1, b) →
    v1.status = v.status ∧ v1.programCounter = v.programCounter ∧
    v1.foreignCallCounter = v.foreignCallCounter ∧ v1.bytecode = v.bytecode ∧
    v1.foreignCallResults = v.foreignCallResults ∧ v1.callStack = v.callStack := by
  induction l with
  | nil =>
    intro v v1 b h
    simp [VM.writeForeignOutputs] at h
    obtain ⟨rfl, rfl⟩ := h
    exact ⟨rfl, rfl, rfl, rfl, rfl, rfl⟩
  | cons head rest ih =>
    obtain ⟨d, o⟩ := head
    intro v v1 b h
    cases d with
    | registerIndex i =>
      cases o with
      | single val =>
        rw [VM.writeForeignOutputs] at h
        simpa using ih _ _ _ h
      | array vs =>
        rw [VM.writeForeignOutputs] at h
        · cases h
        · intro value hx
          cases hx
    | heapArray ptr size =>
      cases o with
      | single val =>
        rw [VM.writeForeignOutputs] at h
        · cases h
        · intro values hx
          cases hx
      | array vals =>
        rw [VM.writeForeignOutputs] at h
        split at h
        · simp at h
          obtain ⟨rfl, rfl⟩ := h
          exact ⟨rfl, rfl, rfl, rfl, rfl, rfl⟩
        · simpa using ih _ _ _ h
    | heapVector ptr sizeIdx =>
      cases o with
      | single val =>
        rw [VM.writeForeignOutputs] at h
        · cases h
        · intro values hx
          cases hx
      | array vals =>
        rw [VM.writeForeignOutputs] at h
        simpa using ih _ _ _ h

theorem processOpcode_foreignCall_available (v : VM) (function : String)
    (destinations inputs : List RegisterOrMemory) (result : ForeignCallResult)
    (v2 : VM) (invalid : Bool)
    (hfetch : v.bytecode[v.programCounter]? =
      some (Opcode.foreignCall function destinations inputs))
    (hres : v.foreignCallResults[v.foreignCallCounter]? = some result)
    (hwrite : VM.writeForeignOutputs v (destinations.zip result.values) = some (v2, invalid)) :
    ∃ v3, VM.processOpcode v = some (VM.incrementProgramCounter v3) ∧
      v3.foreignCallCounter = v2.foreignCallCounter + 1 ∧
      v3.registers = v2.registers ∧ v3.memory = v2.memory ∧
      v3.bytecode = v2.bytecode ∧ v3.programCounter = v2.programCounter ∧
      v3.callStack = v2.callStack ∧
      v3.status = (if invalid then
          VMStatus.failure "Function result size does not match brillig bytecode"
        else if destinations.length ≠ result.values.length then
          VMStatus.failure (toString result.values.length ++
            " output values were provided as a foreign call result for " ++
            toString destinations.length ++ " destination slots")
        else v2.status) := by
  have hnot : ¬ v.foreignCallResults.length ≤ v.foreignCallCounter :=
    Nat.not_le.mpr (lt_length_of_getElem? _ _ _ hres)
  have hcomp : ∃ w, VM.processOpcode v = some (VM.incrementProgramCounter w) ∧
      w = { (if invalid then
          (if destinations.length ≠ result.values.length then
            VM.fail v2 (toString result.values.length ++
              " output values were provided as a foreign call result for " ++
              toString destinations.length ++ " destination slots")
          else v2).fail "Function result size does not match brillig bytecode"
        else
          (if destinations.length ≠ result.values.length then
            VM.fail v2 (toString result.values.length ++
              " output values were provided as a foreign call result for " ++
              toString destinations.length ++ " destination slots")
          else v2)) with
        foreignCallCounter := (if invalid then
          (if destinations.length ≠ result.values.length then
            VM.fail v2 (toString result.values.length ++
              " output values were provided as a foreign call result for " ++
              toString destinations.length ++ " destination slots")
          else v2).fail "Function result size does not match brillig bytecode"
        else
          (if destinations.length ≠ result.values.length then
            VM.fail v2 (toString result.values.length ++
              " output values were provided as a foreign call result for " ++
              toString destinations.length ++ " destination slots")
          else v2)).foreignCallCounter + 1 } := by
    refine ⟨_, ?_, rfl⟩
    unfold VM.processOpcode
    rw [hfetch]
    dsimp only
    rw [if_neg hnot, hres]
    dsimp only
    rw [hwrite]
  obtain ⟨w, hw, rfl⟩ := hcomp
  refine ⟨_, hw, ?_, ?_, ?_, ?_, ?_, ?_, ?_⟩ <;>
    by_cases hinv : invalid = true <;>
      by_cases hnd : destinations.length ≠ result.values.length <;>
        simp [hinv, hnd, VM.fail]

end BrilligVM

/-- C6 (amended): executing a `ForeignCall` with an available result writes
each `Register` destination its `Single` value, writes a matching-size
`HeapArray`'s values to memory starting at the pointer register's address,
and for a `HeapVector` sets the size register to the array length before the
values are written; a `HeapArray` length mismatch or a destination/output
count mismatch makes the VM record a `Failure` — which is the status at the
end of the step whenever the advanced program counter still points into the
bytecode, but is overwritten to `Finished` when the `ForeignCall` is the
last opcode (see the counterexample); `foreign_call_counter` and the program
counter advance by exactly 1 on success (and also on these failures). -/
theorem foreign_call_result_writeback :
    (∀ (v v2 : BrilligVM.VM) (function : String)
      (destinations inputs : List BrilligVM.RegisterOrMemory)
      (result : BrilligVM.ForeignCallResult),
      v.bytecode[v.programCounter]? =
        some (BrilligVM.Opcode.foreignCall function destinations inputs) →
      v.foreignCallResults[v.foreignCallCounter]? = some result →
      BrilligVM.VM.writeForeignOutputs v (destinations.zip result.values) = some (v2, false) →
      destinations.length = result.values.length →
      ∃ v3, BrilligVM.VM.processOpcode v = some v3 ∧
        v3.foreignCallCounter = v.foreignCallCounter + 1 ∧
        v3.programCounter = v.programCounter + 1 ∧
        v3.registers = v2.registers ∧ v3.memory = v2.memory ∧
        v3.callStack = v.callStack ∧
        (v.programCounter + 1 < v.bytecode.length → v3.status = v.status) ∧
        (v.bytecode.length ≤ v.programCounter + 1 →
          v3.status = BrilligVM.VMStatus.finished)) ∧
    (∀ (v v2 : BrilligVM.VM) (function : String)
      (destinations inputs : List BrilligVM.RegisterOrMemory)
      (result : BrilligVM.ForeignCallResult),
      v.bytecode[v.programCounter]? =
        some (BrilligVM.Opcode.foreignCall function destinations inputs) →
      v.foreignCallResults[v.foreignCallCounter]? = some result →
      BrilligVM.VM.writeForeignOutputs v (destinations.zip result.values) = some (v2, false) →
      destinations.length ≠ result.values.length →
      v.programCounter + 1 < v.bytecode.length →
      ∃ v3, BrilligVM.VM.processOpcode v = some v3 ∧
        v3.status = BrilligVM.VMStatus.failure (toString result.values.length ++
          " output values were provided as a foreign call result for " ++
          toString destinations.length ++ " destination slots") ∧
        v3.foreignCallCounter = v.foreignCallCounter + 1 ∧
        v3.programCounter = v.programCounter + 1) ∧
    (∀ (v v2 : BrilligVM.VM) (function : String)
      (destinations inputs : List BrilligVM.RegisterOrMemory)
      (result : BrilligVM.ForeignCallResult),
      v.bytecode[v.programCounter]? =
        some (BrilligVM.Opcode.foreignCall function destinations inputs) →
      v.foreignCallResults[v.foreignCallCounter]? = some result →
      BrilligVM.VM.writeForeignOutputs v (destinations.zip result.values) = some (v2, true) →
      v.programCounter + 1 < v.bytecode.length →
      ∃ v3, BrilligVM.VM.processOpcode v = some v3 ∧
        v3.status =
          BrilligVM.VMStatus.failure "Function result size does not match brillig bytecode" ∧
        v3.foreignCallCounter = v.foreignCallCounter + 1 ∧
        v3.programCounter = v.programCounter + 1) ∧
    (∀ (v : BrilligVM.VM) (i : BrilligVM.RegisterIndex) (val : BrilligVM.Value)
      (rest : List (BrilligVM.RegisterOrMemory × BrilligVM.ForeignCallOutput)),
      BrilligVM.VM.writeForeignOutputs v
          ((BrilligVM.RegisterOrMemory.registerIndex i,
            BrilligVM.ForeignCallOutput.single val) :: rest) =
        BrilligVM.VM.writeForeignOutputs
          { v with registers := BrilligVM.Registers.set v.registers i val } rest) ∧
    (∀ (v : BrilligVM.VM) (ptr : BrilligVM.RegisterIndex) (size : Nat)
      (vals : List BrilligVM.Value)
      (rest : List (BrilligVM.RegisterOrMemory × BrilligVM.ForeignCallOutput)),
      vals.length = size →
      BrilligVM.VM.writeForeignOutputs v
          ((BrilligVM.RegisterOrMemory.heapArray ptr size,
            BrilligVM.ForeignCallOutput.array vals) :: rest) =
        BrilligVM.VM.writeForeignOutputs
          { v with memory := BrilligVM.Memory.writeSlice v.memory (BrilligVM.Registers.get v.registers ptr).toUsize vals } rest) ∧
    (∀ (v : BrilligVM.VM) (ptr : BrilligVM.RegisterIndex) (size : Nat)
      (vals : List BrilligVM.Value)
      (rest : List (BrilligVM.RegisterOrMemory × BrilligVM.ForeignCallOutput)),
      vals.length ≠ size →
      BrilligVM.VM.writeForeignOutputs v
          ((BrilligVM.RegisterOrMemory.heapArray ptr size,
            BrilligVM.ForeignCallOutput.array vals) :: rest) = some (v, true)) ∧
    (∀ (v : BrilligVM.VM) (ptr sizeIdx : BrilligVM.RegisterIndex)
      (vals : List BrilligVM.Value)
      (rest : List (BrilligVM.RegisterOrMemory × BrilligVM.ForeignCallOutput)),
      BrilligVM.VM.writeForeignOutputs v
          ((BrilligVM.RegisterOrMemory.heapVector ptr sizeIdx,
            BrilligVM.ForeignCallOutput.array vals) :: rest) =
        BrilligVM.VM.writeForeignOutputs
          { v with
            registers := BrilligVM.Registers.set v.registers sizeIdx (BrilligVM.Value.toUsize vals.length)
            memory := BrilligVM.Memory.writeSlice v.memory (BrilligVM.Registers.get (BrilligVM.Registers.set v.registers sizeIdx (BrilligVM.Value.toUsize vals.length)) ptr).toUsize vals } rest) := by
  refine ⟨?_, ?_, ?_, ?_, ?_, ?_, ?_⟩
  · intro v v2 function destinations inputs result hfetch hres hwrite hlen
    obtain ⟨v3, hp, hfcc, hreg, hmem, hbc, hpcq, hcs, hstat⟩ :=
      BrilligVM.processOpcode_foreignCall_available v function destinations inputs result v2
        false hfetch hres hwrite
    obtain ⟨hs2, hpc2, hfcc2, hbc2, _, hcs2⟩ :=
      BrilligVM.writeForeignOutputs_preserves _ _ _ _ hwrite
    obtain ⟨hbI, hpI, hsI⟩ :=
      BrilligVM.setProgramCounter_spec v3 (v3.programCounter + 1)
    obtain ⟨hrI, hmI, hfI, _, hcI⟩ :=
      BrilligVM.setProgramCounter_fields v3 (v3.programCounter + 1)
    refine ⟨_, hp, ?_, ?_, ?_, ?_, ?_, ?_, ?_⟩ <;>
      simp only [BrilligVM.VM.incrementProgramCounter] at *
    · rw [hfI, hfcc, hfcc2]
    · rw [hpI, hpcq, hpc2]
    · rw [hrI, hreg]
    · rw [hmI, hmem]
    · rw [hcI, hcs, hcs2]
    · intro hlt
      rw [hsI, hbc, hbc2, hpcq, hpc2, if_neg (Nat.not_le.mpr hlt), hstat]
      simp [hlen, hs2]
    · intro hge
      rw [hsI, hbc, hbc2, hpcq, hpc2, if_pos hge]
  · intro v v2 function destinations inputs result hfetch hres hwrite hlen hlt
    obtain ⟨v3, hp, hfcc, hreg, hmem, hbc, hpcq, hcs, hstat⟩ :=
      BrilligVM.processOpcode_foreignCall_available v function destinations inputs result v2
        false hfetch hres hwrite
    obtain ⟨hs2, hpc2, hfcc2, hbc2, _, hcs2⟩ :=
      BrilligVM.writeForeignOutputs_preserves _ _ _ _ hwrite
    obtain ⟨hbI, hpI, hsI⟩ :=
      BrilligVM.setProgramCounter_spec v3 (v3.programCounter + 1)
    obtain ⟨hrI, hmI, hfI, _, hcI⟩ :=
      BrilligVM.setProgramCounter_fields v3 (v3.programCounter + 1)
    refine ⟨_, hp, ?_, ?_, ?_⟩ <;>
      simp only [BrilligVM.VM.incrementProgramCounter] at *
    · rw [hsI, hbc, hbc2, hpcq, hpc2, if_neg (Nat.not_le.mpr hlt), hstat]
      simp [hlen]
    · rw [hfI, hfcc, hfcc2]
    · rw [hpI, hpcq, hpc2]
  · intro v v2 function destinations inputs result hfetch hres hwrite hlt
    obtain ⟨v3, hp, hfcc, hreg, hmem, hbc, hpcq, hcs, hstat⟩ :=
      BrilligVM.processOpcode_foreignCall_available v function destinations inputs result v2
        true hfetch hres hwrite
    obtain ⟨hs2, hpc2, hfcc2, hbc2, _, hcs2⟩ :=
      BrilligVM.writeForeignOutputs_preserves _ _ _ _ hwrite
    obtain ⟨hbI, hpI, hsI⟩ :=
      BrilligVM.setProgramCounter_spec v3 (v3.programCounter + 1)
    obtain ⟨hrI, hmI, hfI, _, hcI⟩ :=
      BrilligVM.setProgramCounter_fields v3 (v3.programCounter + 1)
    refine ⟨_, hp, ?_, ?_, ?_⟩ <;>
      simp only [BrilligVM.VM.incrementProgramCounter] at *
    · rw [hsI, hbc, hbc2, hpcq, hpc2, if_neg (Nat.not_le.mpr hlt), hstat]
      simp
    · rw [hfI, hfcc, hfcc2]
    · rw [hpI, hpcq, hpc2]
  · intro v i val rest
    rw [BrilligVM.VM.writeForeignOutputs]
  · intro v ptr size vals rest hsz
    rw [BrilligVM.VM.writeForeignOutputs]
    simp [hsz]
  · intro v ptr size vals rest hsz
    rw [BrilligVM.VM.writeForeignOutputs]
    simp [hsz]
  · intro v ptr sizeIdx vals rest
    rw [BrilligVM.VM.writeForeignOutputs]

/-- C6 counterexample: a `ForeignCall` that is the *last* opcode of the
bytecode, supplied 0 output values for 1 destination slot, does record the
count-mismatch failure — but the unconditional program-counter advance then
moves `pc` to the end of the bytecode and overwrites the status with
`Finished`, so the step does not end with status `Failure` as the claim
states. -/
theorem foreign_call_failure_overwritten_counterexample :
    BrilligVM.VM.processOpcode
      (BrilligVM.VM.new [] []
        [BrilligVM.Opcode.foreignCall "f" [BrilligVM.RegisterOrMemory.registerIndex 0] []]
        [{ values := [] }]) = some
      { registers := []
        programCounter := 1
        foreignCallCounter := 1
        foreignCallResults := [{ values := [] }]
        bytecode :=
          [BrilligVM.Opcode.foreignCall "f" [BrilligVM.RegisterOrMemory.registerIndex 0] []]
        status := BrilligVM.VMStatus.finished
        memory := []
        callStack := [] } ∧
    [BrilligVM.RegisterOrMemory.registerIndex 0].length ≠
      ([] : List BrilligVM.ForeignCallOutput).length := by
  exact ⟨rfl, by decide⟩

/-- Witness for C6's theorem: one register destination receiving its single
value, with the result consumed and both counters advanced. -/
theorem foreign_call_result_writeback_witness :
    ∃ v3, BrilligVM.VM.processOpcode
        (BrilligVM.VM.new [5] []
          [BrilligVM.Opcode.foreignCall "double"
             [BrilligVM.RegisterOrMemory.registerIndex 1]
             [BrilligVM.RegisterOrMemory.registerIndex 0],
           BrilligVM.Opcode.stop]
          [{ values := [BrilligVM.ForeignCallOutput.single 10] }]) = some v3 ∧
      v3.foreignCallCounter = 0 + 1 ∧
      v3.programCounter = 0 + 1 ∧
      v3.registers = [5, 10] ∧
      v3.memory = [] ∧
      v3.callStack = [] ∧
      v3.status = BrilligVM.VMStatus.inProgress := by
  obtain ⟨v3, hp, hfcc, hpc, hreg, hmem, hcs, hst, _⟩ :=
    foreign_call_result_writeback.1
      (BrilligVM.VM.new [5] []
        [BrilligVM.Opcode.foreignCall "double"
           [BrilligVM.RegisterOrMemory.registerIndex 1]
           [BrilligVM.RegisterOrMemory.registerIndex 0],
         BrilligVM.Opcode.stop]
        [{ values := [BrilligVM.ForeignCallOutput.single 10] }])
      { registers := [5, 10]
        programCounter := 0
        foreignCallCounter := 0
        foreignCallResults := [{ values := [BrilligVM.ForeignCallOutput.single 10] }]
        bytecode :=
          [BrilligVM.Opcode.foreignCall "double"
             [BrilligVM.RegisterOrMemory.registerIndex 1]
             [BrilligVM.RegisterOrMemory.registerIndex 0],
           BrilligVM.Opcode.stop]
        status := BrilligVM.VMStatus.inProgress
        memory := []
        callStack := [] }
      "double" [BrilligVM.RegisterOrMemory.registerIndex 1]
      [BrilligVM.RegisterOrMemory.registerIndex 0]
      { values := [BrilligVM.ForeignCallOutput.single 10] }
      rfl rfl (by simp [BrilligVM.VM.writeForeignOutputs, BrilligVM.VM.new,
        BrilligVM.Registers.set]) (by decide)
  refine ⟨v3, hp, hfcc, hpc, by simpa using hreg, by simpa using hmem,
    by simpa [BrilligVM.VM.new] using hcs, ?_⟩
  have := hst (by simp [BrilligVM.VM.new])
  simpa [BrilligVM.VM.new] using this

namespace BrilligVM

theorem setProgramCounter_fcc (v : VM) (n : Nat) :
    (v.setProgramCounter n).foreignCallCounter = v.foreignCallCounter :=
  (setProgramCounter_fields v n).2.2.1

theorem processOpcode_fcc (v v1 : VM) (h : VM.processOpcode v = some v1) :
    v1.foreignCallCounter = v.foreignCallCounter +
      (if VM.fullyExecutesForeignCall v then 1 else 0) := by
  have h0 := h
  unfold VM.processOpcode at h
  cases hfetch : v.bytecode[v.programCounter]? with
  | none =>
    rw [hfetch] at h
    exact absurd h (by simp)
  | some opcode =>
    rw [hfetch] at h
    cases opcode with
    | binaryFieldOp op lhs rhs result =>
      obtain rfl : _ = v1 := Option.some.inj h
      simp [VM.incrementProgramCounter, setProgramCounter_fcc, VM.fullyExecutesForeignCall,
        hfetch, VM.processBinaryFieldOp]
    | binaryIntOp op bitSize lhs rhs result =>
      obtain rfl : _ = v1 := Option.some.inj h
      simp [VM.incrementProgramCounter, setProgramCounter_fcc, VM.fullyExecutesForeignCall,
        hfetch, VM.processBinaryIntOp]
    | jump destination =>
      obtain rfl : _ = v1 := Option.some.inj h
      simp [setProgramCounter_fcc, VM.fullyExecutesForeignCall, hfetch]
    | jumpIf condition destination =>
      dsimp only at h
      split at h <;>
      · obtain rfl : _ = v1 := Option.some.inj h
        simp [VM.incrementProgramCounter, setProgramCounter_fcc, VM.fullyExecutesForeignCall,
          hfetch]
    | jumpIfNot condition destination =>
      dsimp only at h
      split at h <;>
      · obtain rfl : _ = v1 := Option.some.inj h
        simp [VM.incrementProgramCounter, setProgramCounter_fcc, VM.fullyExecutesForeignCall,
          hfetch]
    | ret =>
      dsimp only at h
      cases hcs : v.callStack with
      | cons register rest =>
        rw [hcs] at h
        obtain rfl : _ = v1 := Option.some.inj h
        simp [setProgramCounter_fcc, VM.fullyExecutesForeignCall, hfetch]
      | nil =>
        rw [hcs] at h
        obtain rfl : _ = v1 := Option.some.inj h
        simp [VM.fail, VM.fullyExecutesForeignCall, hfetch]
    | foreignCall function destinations inputs =>
      by_cases hwait : v.foreignCallResults.length ≤ v.foreignCallCounter
      · have hcomp : VM.processOpcode v = some (v.waitForForeignCall function
            (inputs.map (fun input => v.getRegisterValueOrMemoryValues input))) := by
          unfold VM.processOpcode
          rw [hfetch]
          simp [hwait]
        rw [hcomp] at h0
        obtain rfl : _ = v1 := Option.some.inj h0
        simp [VM.waitForForeignCall, VM.fullyExecutesForeignCall, hfetch,
          Nat.not_lt.mpr hwait]
      · have hfull : VM.fullyExecutesForeignCall v = true := by
          simp [VM.fullyExecutesForeignCall, hfetch, Nat.lt_of_not_le hwait]
        cases hres : v.foreignCallResults[v.foreignCallCounter]? with
        | none =>
          exact absurd hres (by
            simp [List.getElem?_eq_none_iff]
            exact Nat.lt_of_not_le hwait)
        | some result =>
          cases hwrite : VM.writeForeignOutputs v (destinations.zip result.values) with
          | none =>
            have hnone : VM.processOpcode v = none := by
              unfold VM.processOpcode
              rw [hfetch]
              dsimp only
              rw [if_neg hwait, hres]
              dsimp only
              rw [hwrite]
            rw [hnone] at h0
            cases h0
          | some pair =>
            obtain ⟨v2, invalid⟩ := pair
            obtain ⟨v3, hp, hfcc, _, _, _, _, _, _⟩ :=
              processOpcode_foreignCall_available v function destinations inputs result v2
                invalid hfetch hres hwrite
            rw [hp] at h0
            obtain rfl : _ = v1 := Option.some.inj h0
            obtain ⟨_, _, hfcc2, _, _, _⟩ := writeForeignOutputs_preserves _ _ _ _ hwrite
            simp [VM.incrementProgramCounter, setProgramCounter_fcc, hfull, hfcc, hfcc2]
    | mov destinationRegister sourceRegister =>
      obtain rfl : _ = v1 := Option.some.inj h
      simp [VM.incrementProgramCounter, setProgramCounter_fcc, VM.fullyExecutesForeignCall,
        hfetch]
    | trap =>
      obtain rfl : _ = v1 := Option.some.inj h
      simp [VM.fail, VM.fullyExecutesForeignCall, hfetch]
    | stop =>
      obtain rfl : _ = v1 := Option.some.inj h
      simp [VM.finish, VM.fullyExecutesForeignCall, hfetch]
    | load destinationRegister sourcePointer =>
      obtain rfl : _ = v1 := Option.some.inj h
      simp [VM.incrementProgramCounter, setProgramCounter_fcc, VM.fullyExecutesForeignCall,
        hfetch]
    | store destinationPointer sourceRegister =>
      obtain rfl : _ = v1 := Option.some.inj h
      simp [VM.incrementProgramCounter, setProgramCounter_fcc, VM.fullyExecutesForeignCall,
        hfetch]
    | call location =>
      obtain rfl : _ = v1 := Option.some.inj h
      simp [setProgramCounter_fcc, VM.fullyExecutesForeignCall, hfetch]
    | const destination value =>
      obtain rfl : _ = v1 := Option.some.inj h
      simp [VM.incrementProgramCounter, setProgramCounter_fcc, VM.fullyExecutesForeignCall,
        hfetch]

end BrilligVM

/-- C9: along any run of the VM driver loop, the foreign-call counter equals
its starting value plus the number of steps that fully executed a
`ForeignCall` opcode (each such step consuming the results entry at the
counter's position); per step the counter grows by exactly 1 on a full
`ForeignCall` execution and is unchanged otherwise (in particular it never
decreases, and a suspension leaves it untouched, so a suspended-then-resumed
call is counted exactly once). -/
theorem foreign_call_counter_invariant :
    (∀ (v v1 : BrilligVM.VM), BrilligVM.VM.processOpcode v = some v1 →
      v1.foreignCallCounter = v.foreignCallCounter +
        (if BrilligVM.VM.fullyExecutesForeignCall v then 1 else 0) ∧
      v.foreignCallCounter ≤ v1.foreignCallCounter) ∧
    (∀ (n : Nat) (v vf : BrilligVM.VM) (k : Nat),
      BrilligVM.VM.stepsCount n v = some (vf, k) →
      vf.foreignCallCounter = v.foreignCallCounter + k) := by
  constructor
  · intro v v1 h
    have heq := BrilligVM.processOpcode_fcc v v1 h
    exact ⟨heq, by omega⟩
  · intro n
    induction n with
    | zero =>
      intro v vf k h
      rw [BrilligVM.VM.stepsCount] at h
      obtain ⟨rfl, rfl⟩ : v = vf ∧ 0 = k := by
        simpa using h
      simp
    | succ n ih =>
      intro v vf k h
      rw [BrilligVM.VM.stepsCount] at h
      by_cases hst : v.status = BrilligVM.VMStatus.inProgress
      · rw [if_pos hst] at h
        cases hp : BrilligVM.VM.processOpcode v with
        | none => rw [hp] at h; cases h
        | some v1 =>
          rw [hp] at h
          dsimp only at h
          cases hs : BrilligVM.VM.stepsCount n v1 with
          | none => rw [hs] at h; simp at h
          | some pair =>
            obtain ⟨vfx, kx⟩ := pair
            rw [hs] at h
            obtain ⟨rfl, rfl⟩ : vfx = vf ∧ kx + (if BrilligVM.VM.fullyExecutesForeignCall v then 1 else 0) = k := by
              simpa using h
            have h1 := BrilligVM.processOpcode_fcc v v1 hp
            have h2 := ih v1 vfx kx hs
            omega
      · rw [if_neg hst] at h
        obtain ⟨rfl, rfl⟩ : v = vf ∧ 0 = k := by
          simpa using h
        simp

/-- Witness for C9's theorem: a two-opcode program whose `ForeignCall`
consumes its one supplied result; after the run the counter is 1. -/
theorem foreign_call_counter_invariant_witness :
    ({ registers := []
       programCounter := 1
       foreignCallCounter := 1
       foreignCallResults := [{ values := [] }]
       bytecode := [BrilligVM.Opcode.foreignCall "f" [] [], BrilligVM.Opcode.stop]
       status := BrilligVM.VMStatus.finished
       memory := []
       callStack := [] } : BrilligVM.VM).foreignCallCounter = 0 + 1 := by
  have h := foreign_call_counter_invariant.2 3
    (BrilligVM.VM.new [] [] [BrilligVM.Opcode.foreignCall "f" [] [], BrilligVM.Opcode.stop]
      [{ values := [] }])
    { registers := []
      programCounter := 1
      foreignCallCounter := 1
      foreignCallResults := [{ values := [] }]
      bytecode := [BrilligVM.Opcode.foreignCall "f" [] [], BrilligVM.Opcode.stop]
      status := BrilligVM.VMStatus.finished
      memory := []
      callStack := [] } 1 rfl
  exact h


theorem roundGo_firstStall (r : Resolver) (ops : List ACOpcode) :
    ∀ (m : WitnessMap) (p : List UnresolvedBrilligCall) (u0 : List ACOpcode) (st0 : Bool)
      (fs0 : Option OpcodeNotSolvable) (m1 : WitnessMap) (p1 : List UnresolvedBrilligCall)
      (u1 : List ACOpcode) (st1 : Bool) (fs1 : Option OpcodeNotSolvable),
    roundGo r ops m p u0 st0 fs0 = (m1, p1, RoundExit.completed u1 st1 fs1) →
    fs1 = (match fs0 with
           | some s => some s
           | none => (roundStallReasons r ops m).head?) := by
  induction ops with
  | nil =>
    intro m p u0 st0 fs0 m1 p1 u1 st1 fs1 h
    rw [roundGo] at h
    simp at h
    obtain ⟨-, -, -, -, rfl⟩ := h
    cases fs0 <;> simp [roundStallReasons]
  | cons op rest ih =>
    intro m p u0 st0 fs0 m1 p1 u1 st1 fs1 h
    rw [roundGo] at h
    try dsimp only at h
    cases hr : (r m op).2 with
    | error e =>
      rw [hr] at h
      cases e <;> simp at h
    | ok res =>
      rw [hr] at h
      cases res with
      | solved =>
        dsimp only at h
        have hrec := ih _ _ _ _ _ _ _ _ _ _ h
        cases fs0 <;> simpa [roundStallReasons, hr] using hrec
      | inProgress =>
        dsimp only at h
        have hrec := ih _ _ _ _ _ _ _ _ _ _ h
        cases fs0 <;> simpa [roundStallReasons, hr] using hrec
      | inProgressBrillig waitInfo =>
        dsimp only at h
        have hrec := ih _ _ _ _ _ _ _ _ _ _ h
        cases fs0 <;> simpa [roundStallReasons, hr] using hrec
      | stalled notSolvable =>
        dsimp only at h
        have hrec := ih _ _ _ _ _ _ _ _ _ _ h
        cases fs0 <;> simpa [roundStallReasons, hr] using hrec

theorem roundGo_stalled_length (r : Resolver) (ops : List ACOpcode) :
    ∀ (m : WitnessMap) (p : List UnresolvedBrilligCall) (u0 : List ACOpcode) (st0 : Bool)
      (fs0 : Option OpcodeNotSolvable) (m1 : WitnessMap) (p1 : List UnresolvedBrilligCall)
      (u1 : List ACOpcode) (fs1 : Option OpcodeNotSolvable),
    roundGo r ops m p u0 st0 fs0 = (m1, p1, RoundExit.completed u1 true fs1) →
    st0 = true ∧ u1.length = u0.length + (roundStallReasons r ops m).length := by
  induction ops with
  | nil =>
    intro m p u0 st0 fs0 m1 p1 u1 fs1 h
    rw [roundGo] at h
    simp at h
    obtain ⟨-, -, rfl, rfl, -⟩ := h
    simp [roundStallReasons]
  | cons op rest ih =>
    intro m p u0 st0 fs0 m1 p1 u1 fs1 h
    rw [roundGo] at h
    try dsimp only at h
    cases hr : (r m op).2 with
    | error e =>
      rw [hr] at h
      cases e <;> simp at h
    | ok res =>
      rw [hr] at h
      cases res with
      | solved =>
        dsimp only at h
        obtain ⟨hfalse, -⟩ := ih _ _ _ _ _ _ _ _ _ h
        cases hfalse
      | inProgress =>
        dsimp only at h
        obtain ⟨hfalse, -⟩ := ih _ _ _ _ _ _ _ _ _ h
        cases hfalse
      | inProgressBrillig waitInfo =>
        dsimp only at h
        obtain ⟨hfalse, -⟩ := ih _ _ _ _ _ _ _ _ _ h
        cases hfalse
      | stalled notSolvable =>
        dsimp only at h
        obtain ⟨hst0, hlen⟩ := ih _ _ _ _ _ _ _ _ _ h
        refine ⟨hst0, ?_⟩
        simp only [roundStallReasons, hr]
        simp at hlen ⊢
        omega

/-- C3: after every completed solve round, the loop checks its termination
conditions in source order — first, if any pending foreign call is waiting
the solve returns `RequiresForeignCall`; otherwise, if the remaining opcode
list is empty it returns `Solved`; otherwise, if the round recorded no
progress (every outcome was a stall) it fails with `OpcodeNotSolvable`
carrying the first stall reason recorded in that round; otherwise the next
round begins. -/
theorem solve_round_check_order (r : Resolver) (fuel : Nat) (a : Acvm)
    (m1 : WitnessMap) (p1 : List UnresolvedBrilligCall) (unresolved : List ACOpcode)
    (stalled : Bool) (firstStall : Option OpcodeNotSolvable)
    (hne : a.opcodes ≠ [])
    (hround : roundGo r a.opcodes a.witnessMap a.pendingForeignCalls [] true none
      = (m1, p1, RoundExit.completed unresolved stalled firstStall)) :
    (p1 ≠ [] →
      solve r (fuel + 1) a = (SolveOutcome.requiresForeignCall, ⟨unresolved, m1, p1⟩)) ∧
    (p1 = [] → unresolved = [] →
      solve r (fuel + 1) a = (SolveOutcome.solved, ⟨unresolved, m1, p1⟩)) ∧
    (p1 = [] → unresolved ≠ [] → stalled = true →
      ∃ reason restReasons,
        roundStallReasons r a.opcodes a.witnessMap = reason :: restReasons ∧
        firstStall = some reason ∧
        solve r (fuel + 1) a =
          (SolveOutcome.fatal (OpcodeResolutionError.opcodeNotSolvable reason),
            ⟨unresolved, m1, p1⟩)) ∧
    (p1 = [] → unresolved ≠ [] → stalled = false →
      solve r (fuel + 1) a = solve r fuel ⟨unresolved, m1, p1⟩) := by
  have hne' : a.opcodes.isEmpty = false := by
    cases ha : a.opcodes with
    | nil => exact absurd ha hne
    | cons x xs => rfl
  refine ⟨?_, ?_, ?_, ?_⟩
  · intro hp1
    have hp1' : p1.isEmpty = false := by
      cases hq : p1 with
      | nil => exact absurd hq hp1
      | cons x xs => rfl
    rw [solve]
    simp only [hne', Bool.false_eq_true, if_false]
    simp only [hround]
    simp [hp1']
  · intro hp1 hu
    subst hp1
    subst hu
    cases fuel with
    | zero =>
      rw [solve]
      simp only [hne', Bool.false_eq_true, if_false]
      simp only [hround]
      rw [solve]
      simp
    | succ n =>
      rw [solve]
      simp only [hne', Bool.false_eq_true, if_false]
      simp only [hround]
      rw [solve]
      simp
  · intro hp1 hu hst
    subst hp1
    subst hst
    obtain ⟨-, hlen⟩ :=
      roundGo_stalled_length r a.opcodes a.witnessMap a.pendingForeignCalls [] true none
        m1 [] unresolved firstStall hround
    have hfs :=
      roundGo_firstStall r a.opcodes a.witnessMap a.pendingForeignCalls [] true none
        m1 [] unresolved true firstStall hround
    cases hsr : roundStallReasons r a.opcodes a.witnessMap with
    | nil =>
      exfalso
      rw [hsr] at hlen
      simp at hlen
      exact hu hlen
    | cons reason restReasons =>
      have hfs' : firstStall = some reason := by
        simpa [hsr] using hfs
      subst hfs'
      have hu' : unresolved.isEmpty = false := by
        cases hq : unresolved with
        | nil => exact absurd hq hu
        | cons x xs => rfl
      refine ⟨reason, restReasons, rfl, rfl, ?_⟩
      rw [solve]
      simp only [hne', Bool.false_eq_true, if_false]
      simp only [hround]
      simp [hu']
  · intro hp1 hu hst
    subst hp1
    subst hst
    have hu' : unresolved.isEmpty = false := by
      cases hq : unresolved with
      | nil => exact absurd hq hu
      | cons x xs => rfl
    rw [solve]
    simp only [hne', Bool.false_eq_true, if_false]
    simp only [hround]
    simp [hu']

/-- Witness for C3's theorem: a one-opcode session whose resolver always
stalls; the round ends with no pending call, a nonempty retained list, and
no progress, so solve fails with the round's first (only) stall reason. -/
theorem solve_round_check_order_witness :
    ∃ reason restReasons,
      roundStallReasons
        (fun m _ =>
          (m, Except.ok (OpcodeResolution.stalled (OpcodeNotSolvable.missingAssignment 7))))
        [ACOpcode.arithmetic { qC := 0, linearCombinations := [], mulTerms := [] }] [] =
        reason :: restReasons ∧
      (some (OpcodeNotSolvable.missingAssignment 7) : Option OpcodeNotSolvable) = some reason ∧
      solve
        (fun m _ =>
          (m, Except.ok (OpcodeResolution.stalled (OpcodeNotSolvable.missingAssignment 7))))
        (0 + 1)
        ⟨[ACOpcode.arithmetic { qC := 0, linearCombinations := [], mulTerms := [] }], [], []⟩ =
        (SolveOutcome.fatal (OpcodeResolutionError.opcodeNotSolvable reason),
          ⟨[ACOpcode.arithmetic { qC := 0, linearCombinations := [], mulTerms := [] }], [],
            []⟩) := by
  obtain ⟨reason, restReasons, hsr, hfs, hsv⟩ := (solve_round_check_order
    (fun m _ =>
      (m, Except.ok (OpcodeResolution.stalled (OpcodeNotSolvable.missingAssignment 7))))
    0
    ⟨[ACOpcode.arithmetic { qC := 0, linearCombinations := [], mulTerms := [] }], [], []⟩
    [] [] [ACOpcode.arithmetic { qC := 0, linearCombinations := [], mulTerms := [] }]
    true (some (OpcodeNotSolvable.missingAssignment 7))
    (by simp) rfl).2.2.1 rfl (by simp) rfl
  exact ⟨reason, restReasons, hsr, hfs, hsv⟩

theorem WitnessMap.submap_refl (m : WitnessMap) : WitnessMap.submap m m :=
  fun _ _ h => h

theorem WitnessMap.submap_trans {a b c : WitnessMap}
    (h1 : WitnessMap.submap a b) (h2 : WitnessMap.submap b c) : WitnessMap.submap a c :=
  fun w v h => h2 w v (h1 w v h)

theorem roundGo_monotone (r : Resolver) (hr : ResolverMonotone r) (ops : List ACOpcode) :
    ∀ (m : WitnessMap) (p : List UnresolvedBrilligCall) (u : List ACOpcode) (st : Bool)
      (fs : Option OpcodeNotSolvable),
    WitnessMap.submap m (roundGo r ops m p u st fs).1 := by
  induction ops with
  | nil =>
    intro m p u st fs
    rw [roundGo]
    exact WitnessMap.submap_refl m
  | cons op rest ih =>
    intro m p u st fs
    have hstep := hr m op
    rw [roundGo]
    try dsimp only
    cases hr2 : (r m op).2 with
    | error e =>
      cases e with
      | opcodeNotSolvable q => simpa [hr2] using hstep
      | unsupportedBlackBoxFunc f => simpa [hr2] using hstep
      | unsatisfiedConstrain => simpa [hr2] using hstep
      | blackBoxFunctionFailed f msg => simpa [hr2] using hstep
      | brilligFunctionFailed msg => simpa [hr2] using hstep
    | ok res =>
      cases res with
      | solved =>
        simp only [hr2]
        exact WitnessMap.submap_trans hstep (ih _ _ _ _ _)
      | inProgress =>
        simp only [hr2]
        exact WitnessMap.submap_trans hstep (ih _ _ _ _ _)
      | inProgressBrillig waitInfo =>
        simp only [hr2]
        exact WitnessMap.submap_trans hstep (ih _ _ _ _ _)
      | stalled notSolvable =>
        simp only [hr2]
        exact WitnessMap.submap_trans hstep (ih _ _ _ _ _)

theorem solve_monotone (r : Resolver) (hr : ResolverMonotone r) :
    ∀ (fuel : Nat) (a : Acvm),
    WitnessMap.submap a.witnessMap (solve r fuel a).2.witnessMap := by
  intro fuel
  induction fuel with
  | zero =>
    intro a
    rw [solve]
    split
    · exact WitnessMap.submap_refl _
    · exact WitnessMap.submap_refl _
  | succ n ih =>
    intro a
    rw [solve]
    split
    · exact WitnessMap.submap_refl _
    · rcases hrg : roundGo r a.opcodes a.witnessMap a.pendingForeignCalls [] true none with
        ⟨m1, p1, ex⟩
      have hmono : WitnessMap.submap a.witnessMap m1 := by
        have hm := roundGo_monotone r hr a.opcodes a.witnessMap a.pendingForeignCalls [] true none
        rw [hrg] at hm
        exact hm
      cases ex with
      | panicked =>
        simp only [hrg]
        exact hmono
      | fatal e =>
        simp only [hrg]
        exact hmono
      | completed unresolved stalled firstStall =>
        simp only [hrg]
        split
        · exact hmono
        · split
          · split
            · exact hmono
            · exact hmono
          · exact WitnessMap.submap_trans hmono (ih ⟨unresolved, m1, p1⟩)

/-- C10: when `solve` returns a fatal error, the session's witness map is not
rolled back — every assignment present in the map when solve was entered (and
hence, by the same monotonicity applied at any intermediate state, every
assignment inserted by earlier opcodes of any round, provided each sub-solver
only extends the map as the `insert_value` discipline does) is still present
in the final session state, and it remains observable through the
`witness_map()` accessor. -/
theorem solve_error_retains_witness_map (r : Resolver) (hr : ResolverMonotone r)
    (fuel : Nat) (a : Acvm) (e : OpcodeResolutionError)
    (_hfatal : (solve r fuel a).1 = SolveOutcome.fatal e) :
    WitnessMap.submap a.witnessMap ((solve r fuel a).2.witness_map) ∧
    (solve r fuel a).2.witness_map = (solve r fuel a).2.witnessMap := by
  exact ⟨solve_monotone r hr fuel a, rfl⟩

/-- Witness for C10's theorem: a resolver failing with
`UnsatisfiedConstrain` on a one-opcode session; the pre-existing assignment
`w0 ↦ 5` survives into the error state. -/
theorem solve_error_retains_witness_map_witness :
    WitnessMap.submap [(⟨0⟩, 5)]
      ((solve (fun m _ => (m, Except.error OpcodeResolutionError.unsatisfiedConstrain)) 1
        ⟨[ACOpcode.arithmetic { qC := 0, linearCombinations := [], mulTerms := [] }],
          [(⟨0⟩, 5)], []⟩).2.witness_map) ∧
    ((solve (fun m _ => (m, Except.error OpcodeResolutionError.unsatisfiedConstrain)) 1
        ⟨[ACOpcode.arithmetic { qC := 0, linearCombinations := [], mulTerms := [] }],
          [(⟨0⟩, 5)], []⟩).2.witness_map) =
      ((solve (fun m _ => (m, Except.error OpcodeResolutionError.unsatisfiedConstrain)) 1
        ⟨[ACOpcode.arithmetic { qC := 0, linearCombinations := [], mulTerms := [] }],
          [(⟨0⟩, 5)], []⟩).2.witnessMap) := by
  exact solve_error_retains_witness_map
    (fun m _ => (m, Except.error OpcodeResolutionError.unsatisfiedConstrain))
    (fun m op w v h => h) 1
    ⟨[ACOpcode.arithmetic { qC := 0, linearCombinations := [], mulTerms := [] }],
      [(⟨0⟩, 5)], []⟩
    OpcodeResolutionError.unsatisfiedConstrain rfl
